import Mathlib

/-!
# collectd `processes` plugin (src/processes.c)

A shallow embedding of the name registry, the per-cycle aggregation and the
emission of `src/processes.c`, followed by theorems about them.

Conventions of the embedding:

* C strings are `List Char` (no NUL inside); a fixed `char[256]` buffer filled
  by `strncpy (dst, src, 256)` holds `src.take 256`. A buffer holding fewer than
  256 characters ends in a NUL; one holding 256 does not, and `strcmp` on two such
  buffers that agree runs on into the members behind them (`strcmp_eq`).
* A call inside which the process can die has an `Outcome`: `killed`, or the value
  it returns.
* The linked list `list_head_g` is a `List procstat` in link order; `NULL` is `[]`.
* Unsigned machine integers are `Nat` reduced `% 2^w` at every operation that
  can wrap; `int` values are `Int` wrapped into `[-2^31, 2^31)`.
* Everything the plugin hands to `plugin_submit` is collected, in call order,
  in a `List Submission`.
-/

namespace Processes

/-! ## Machine integers -/

/-- Conversion of an integer value to an unsigned type of `w` bits (C 6.3.1.3). -/
def toU (w : Nat) (x : Int) : Nat := (x % (2 : Int) ^ w).toNat

/-- Value of a signed type of `w` bits after wrapping into `[-2^(w-1), 2^(w-1))`. -/
def wrapS (w : Nat) (x : Int) : Int := (x + 2 ^ (w - 1)) % 2 ^ w - 2 ^ (w - 1)

/-- Value of an `int` after wrapping into `[-2^31, 2^31)`. -/
def wrapInt (x : Int) : Int := wrapS 32 x

/-- The value lies in the range of `int`. -/
def isInt (x : Int) : Prop := -2 ^ 31 ≤ x ∧ x < 2 ^ 31

/-! ## Data model -/

/-- Macro `PROCSTAT_NAME_LEN`. -/
def PROCSTAT_NAME_LEN : Nat := 256

/-- Macro `BUFSIZE`. -/
def BUFSIZE : Nat := 256

/-- Type `procstat_t` without its `next` link (the link is the list structure). -/
structure procstat where
  name : List Char
  num_proc : Nat
  num_lwp : Nat
  vmem_rss : Nat
  vmem_minflt : Nat
  vmem_majflt : Nat
  cpu_user : Nat
  cpu_system : Nat
deriving DecidableEq

/-- Outcome of a call inside which the process can die. -/
inductive Outcome (α : Type) where
  /-- The process is killed inside the call: a failed `assert` calls `abort`, a read
  through a `NULL` pointer raises `SIGSEGV`. -/
  | killed : Outcome α
  /-- The call returns this value. -/
  | returns (v : α) : Outcome α
deriving DecidableEq

/-- The value a call returned; `none` when the process was killed inside it. -/
def Outcome.val? {α : Type} : Outcome α → Option α
  | Outcome.killed => none
  | Outcome.returns v => some v

/-- Platform facts the source takes from its build and run environment. -/
structure Platform where
  /-- Width in bits of `long` and `unsigned long` (32 on ILP32, 64 on LP64). -/
  long_bits : Nat
  /-- Global `pagesize_g`, set by `ps_init` from `sysconf (_SC_PAGESIZE)`. -/
  pagesize_g : Int
  /-- Value of `CONFIG_HZ` when `<linux/config.h>` provides it. -/
  linux_config_hz : Option Nat
  /-- Global `curtime` of the daemon. -/
  curtime : Nat
  /-- What `strcmp (ptr->name, entry->name) == 0` yields when both `name` buffers hold
  the same 256 characters and so no NUL: the comparison runs on into the members
  behind `name`, and what it finds there depends on the byte layout of `procstat_t`. -/
  strcmp_overrun : procstat → procstat → Bool

/-- Macro `CONFIG_HZ`: taken from `<linux/config.h>`, `#define CONFIG_HZ 100` otherwise. -/
def CONFIG_HZ (pf : Platform) : Nat := pf.linux_config_hz.getD 100

/-! ## Registry -/

/-- The call `strncpy (dst, src, PROCSTAT_NAME_LEN)` into a zeroed buffer. -/
def strncpy_name (src : List Char) : List Char := src.take PROCSTAT_NAME_LEN

/-- A `procstat_t` after `memset (new, 0, sizeof (procstat_t))` and the `strncpy` of the name. -/
def procstat_new (name : List Char) : procstat :=
  { name := strncpy_name name, num_proc := 0, num_lwp := 0, vmem_rss := 0,
    vmem_minflt := 0, vmem_majflt := 0, cpu_user := 0, cpu_system := 0 }

/-- The loop and the assignment `ptr->next = new` of `ps_list_append`: walk to the
last node and link `new` behind it; an empty list (`ptr == NULL`) is left alone. -/
def ps_list_link : List procstat → procstat → List procstat
  | [], _ => []
  | [p], new => [p, new]
  | p :: q :: rest, new => p :: ps_list_link (q :: rest) new

/-- Function `ps_list_append (list, name)`. `malloc_ok` says whether `malloc` succeeds. The
result is the returned pointer (`none` for `NULL`) and the list as it is afterwards. -/
def ps_list_append (malloc_ok : Bool) (list : List procstat) (name : List Char) :
    Option procstat × List procstat :=
  if malloc_ok then
    let new := procstat_new name
    (some new, ps_list_link list new)
  else
    (none, list)

/-- ASCII `tolower`. -/
def tolower (c : Char) : Char :=
  if 'A' ≤ c ∧ c ≤ 'Z' then Char.ofNat (c.toNat + 32) else c

/-- The test `strcasecmp (a, b) == 0`. -/
def strcasecmp_eq (a b : List Char) : Bool := a.map tolower == b.map tolower

/-- Function `ps_config (key, value)` on the global `list_head_g`: the return value and the
new `list_head_g`. -/
def ps_config (malloc_ok : Bool) (list_head_g : List procstat) (key value : List Char) :
    Int × List procstat :=
  if strcasecmp_eq key "CollectName".toList then
    match ps_list_append malloc_ok list_head_g value with
    | (none, l) => (1, l)
    | (some entry, l) =>
      if list_head_g = [] then (0, [entry]) else (0, l)
  else
    (-1, list_head_g)

/-! ## Aggregation -/

/-- The seven `+=` of `ps_list_add` on the node found; `unsigned int` fields wrap at
`2^32`, `unsigned long` fields at `2^long_bits`, `unsigned long long` fields at `2^64`. -/
def procstat_accumulate (pf : Platform) (ptr entry : procstat) : procstat :=
  { name := ptr.name,
    num_proc := (ptr.num_proc + entry.num_proc) % 2 ^ 32,
    num_lwp := (ptr.num_lwp + entry.num_lwp) % 2 ^ 32,
    vmem_rss := (ptr.vmem_rss + entry.vmem_rss) % 2 ^ pf.long_bits,
    vmem_minflt := (ptr.vmem_minflt + entry.vmem_minflt) % 2 ^ pf.long_bits,
    vmem_majflt := (ptr.vmem_majflt + entry.vmem_majflt) % 2 ^ pf.long_bits,
    cpu_user := (ptr.cpu_user + entry.cpu_user) % 2 ^ 64,
    cpu_system := (ptr.cpu_system + entry.cpu_system) % 2 ^ 64 }

/-- The test `strcmp (ptr->name, entry->name) == 0`. A buffer with fewer than 256
characters ends in a NUL, so the comparison is decided inside the buffers unless both
are full and agree; then it runs on behind them (`strcmp_overrun`). -/
def strcmp_eq (pf : Platform) (ptr entry : procstat) : Bool :=
  if ptr.name.length < PROCSTAT_NAME_LEN ∨ entry.name.length < PROCSTAT_NAME_LEN then
    decide (ptr.name = entry.name)
  else if ptr.name = entry.name then pf.strcmp_overrun ptr entry
  else false

/-- Function `ps_list_add (list, entry)`: the `while` loop stops at the first node whose name
`strcmp`s equal to the entry's name; that node accumulates, every other node is
untouched; when no node matches the list is unchanged. -/
def ps_list_add (pf : Platform) : List procstat → procstat → List procstat
  | [], _ => []
  | ptr :: rest, entry =>
    if strcmp_eq pf ptr entry then procstat_accumulate pf ptr entry :: rest
    else ptr :: ps_list_add pf rest entry

/-- The `n` bytes of an unsigned value, least significant byte first. -/
def le_bytes : Nat → Nat → List Nat
  | 0, _ => []
  | n + 1, v => v % 256 :: le_bytes n (v / 256)

/-- The bytes behind `name` in a `procstat_t` on a little-endian host that lays the
members out without padding (i386, x86-64): the seven counters. The `next` pointer
behind them is not part of the model. -/
def procstat_tail_le (long_bits : Nat) (ps : procstat) : List Nat :=
  le_bytes 4 ps.num_proc ++ le_bytes 4 ps.num_lwp ++ le_bytes (long_bits / 8) ps.vmem_rss
    ++ le_bytes (long_bits / 8) ps.vmem_minflt ++ le_bytes (long_bits / 8) ps.vmem_majflt
    ++ le_bytes 8 ps.cpu_user ++ le_bytes 8 ps.cpu_system

/-- The field `strcmp_overrun` of a little-endian host: behind two full `name` buffers
`strcmp` compares the bytes of the counters up to the first zero byte. -/
def strcmp_overrun_le (long_bits : Nat) (ptr entry : procstat) : Bool :=
  (procstat_tail_le long_bits ptr).takeWhile (fun b => b ≠ 0)
    == (procstat_tail_le long_bits entry).takeWhile (fun b => b ≠ 0)

/-- The seven assignments of `ps_list_reset` on one node. -/
def procstat_reset (ps : procstat) : procstat :=
  { name := ps.name, num_proc := 0, num_lwp := 0, vmem_rss := 0,
    vmem_minflt := 0, vmem_majflt := 0, cpu_user := 0, cpu_system := 0 }

/-- Function `ps_list_reset (ps)`. -/
def ps_list_reset : List procstat → List procstat
  | [] => []
  | ps :: rest => procstat_reset ps :: ps_list_reset rest

/-! ## Emission -/

/-- One call `plugin_submit (type, inst, buf)`; `buf` is the `:`-separated text of
`time` followed by `values`, in this order. -/
structure Submission where
  type : List Char
  inst : List Char
  time : Nat
  values : List Int
deriving DecidableEq

/-- Number of characters of a decimal numeral, by repeated division (`fuel` bounds
the number of digits looked at). -/
def decLenAux : Nat → Nat → Nat
  | 0, _ => 1
  | fuel + 1, n => if n < 10 then 1 else 1 + decLenAux fuel (n / 10)

/-- Characters printed by `%u` / `%lu`. -/
def decLen (n : Nat) : Nat := decLenAux n n

/-- Characters printed by `%i`. -/
def intLen (x : Int) : Nat := if x < 0 then 1 + decLen x.natAbs else decLen x.natAbs

/-- The cast `(unsigned int) curtime`. -/
def curtime_u (pf : Platform) : Nat := pf.curtime % 2 ^ 32

/-- In `ps_submit`: the value `snprintf` returns for `"%u:%i:%i:%i:%i:%i:%i"`. -/
def ps_submit_len (pf : Platform) (vals : List Int) : Nat :=
  decLen (curtime_u pf) + (vals.map (fun v => 1 + intLen v)).sum

/-- Function `ps_submit (running, sleeping, zombies, stopped, paging, blocked)`: nothing is
submitted when the formatted text does not fit `BUFSIZE`. -/
def ps_submit (pf : Platform) (running sleeping zombies stopped paging blocked : Int) :
    List Submission :=
  let vals := [running, sleeping, zombies, stopped, paging, blocked]
  if ps_submit_len pf vals ≥ BUFSIZE then []
  else [{ type := "processes".toList, inst := "-".toList, time := curtime_u pf, values := vals }]

/-- Function `ps_submit_proc (ps)` for a non-`NULL` node: the `ps_rss`, `ps_cputime` and
`ps_count` submissions, in this order. The texts are at most 31 and 32 characters,
so the 64-byte buffer never cuts them. -/
def ps_submit_proc (pf : Platform) (ps : procstat) : List Submission :=
  [ { type := "ps_rss".toList, inst := ps.name, time := curtime_u pf,
      values := [(ps.vmem_rss : Int)] },
    { type := "ps_cputime".toList, inst := ps.name, time := curtime_u pf,
      values := [((ps.cpu_user &&& 0xFFFFFFFF) % 2 ^ 32 : Nat), ((ps.cpu_system &&& 0xFFFFFFFF) % 2 ^ 32 : Nat)] },
    { type := "ps_count".toList, inst := ps.name, time := curtime_u pf,
      values := [(ps.num_proc : Int), (ps.num_lwp : Int)] } ]

/-! ## C library functions used by the scanner -/

/-- C library `isdigit`. -/
def isdigit (c : Char) : Bool := decide ('0' ≤ c ∧ c ≤ '9')

/-- C library `isspace` in the C locale. -/
def isspace (c : Char) : Bool :=
  c = ' ' || c = '\t' || c = '\n' || c = '\x0b' || c = '\x0c' || c = '\r'

/-- Value of the leading decimal digits of a string, continuing from `acc`. -/
def digitsValue : List Char → Nat → Nat
  | [], acc => acc
  | c :: cs, acc => if isdigit c then digitsValue cs (10 * acc + (c.toNat - 48)) else acc

/-- The number `strtol (s, NULL, 10)` reads: leading white space, an optional sign,
then decimal digits; before any range handling. -/
def strtol10 (s : List Char) : Int :=
  match s.dropWhile isspace with
  | [] => 0
  | c :: r =>
    if c = '-' then -(digitsValue r 0 : Int)
    else if c = '+' then (digitsValue r 0 : Int)
    else (digitsValue (c :: r) 0 : Int)

/-- C library `atoi`; a value outside `int` (undefined in C) is wrapped into the type. -/
def atoi (s : List Char) : Int := wrapS 32 (strtol10 s)

/-- C library `atol`; a value outside `long` (undefined in C) is wrapped into the type. -/
def atol (pf : Platform) (s : List Char) : Int := wrapS pf.long_bits (strtol10 s)

/-- C library `atoll`; a value outside `long long` (undefined in C) is wrapped into the type. -/
def atoll (s : List Char) : Int := wrapS 64 (strtol10 s)

/-! ## Linux scanner -/

/-- What the scanner finds under `/proc/<pid>/` for one process. -/
structure ProcFiles where
  /-- The fields `strsplit (buffer, fields, 64)` (common.c) yields for the line read
  from `/proc/<pid>/stat`; `none` when `fopen` or `fgets` fails. -/
  stat_fields : Option (List (List Char))
  /-- The names `readdir` yields for `/proc/<pid>/task`; `none` when `opendir` fails. -/
  task_entries : Option (List (List Char))
  /-- Whether `realloc` to the given number of elements succeeds. -/
  realloc_ok : Nat → Bool

/-- Local variables `list`, `list_size`, `list_len` of `ps_read_tasks`; `list` is
`none` for `NULL`, else the `list_size` elements of the array. -/
structure TaskList where
  list : Option (List Int)
  list_size : Nat
  list_len : Nat
deriving DecidableEq

/-- One iteration of the `readdir` loop of `ps_read_tasks`; `none` is the
`return (NULL)` after a failed `realloc`. -/
def ps_read_tasks_step (realloc_ok : Nat → Bool) (st : TaskList) (d_name : List Char) :
    Option TaskList :=
  if !isdigit (d_name.headD '\x00') then some st
  else
    let grown : Option TaskList :=
      if st.list_len + 1 ≥ st.list_size then
        let new_size := 2 * st.list_size
        if realloc_ok new_size then
          some { list := some ((st.list.getD []).take st.list_len
                               ++ List.replicate (new_size - st.list_len) 0),
                 list_size := new_size, list_len := st.list_len }
        else none
      else some st
    match grown with
    | none => none
    | some g =>
      let v := atoi d_name
      some { list := some ((g.list.getD []).set g.list_len v),
             list_size := g.list_size,
             list_len := if v ≠ 0 then g.list_len + 1 else g.list_len }

/-- The `readdir` loop of `ps_read_tasks`. -/
def ps_read_tasks_loop (realloc_ok : Nat → Bool) : TaskList → List (List Char) → Option TaskList
  | st, [] => some st
  | st, d :: rest =>
    match ps_read_tasks_step realloc_ok st d with
    | none => none
    | some st1 => ps_read_tasks_loop realloc_ok st1 rest

/-- Function `ps_read_tasks (pid)`: the zero-terminated array it returns, `none` for
`NULL`. The two closing assertions are those of the default build (no `NDEBUG`):
`assert (list_len < list_size)` kills the process when it fails, and
`assert (list[list_len] == 0)` kills it when it fails or when `list` is still `NULL`,
which it is when the directory lists no name starting with a digit. -/
def ps_read_tasks (files : ProcFiles) : Outcome (Option (List Int)) :=
  match files.task_entries with
  | none => Outcome.returns none
  | some ents =>
    match ps_read_tasks_loop files.realloc_ok
        { list := none, list_size := 1, list_len := 0 } ents with
    | none => Outcome.returns none
    | some st =>
      if st.list_len < st.list_size then
        match st.list with
        | none => Outcome.killed
        | some l =>
          if l.get? st.list_len = some 0 then Outcome.returns (some l) else Outcome.killed
      else Outcome.killed

/-- Function `ps_read_process (pid, ps, state)`: `none` for the return value `-1`, else the
filled `*ps` and `*state`; the process is killed where `ps_read_tasks` kills it. -/
def ps_read_process (pf : Platform) (files : ProcFiles) :
    Outcome (Option (procstat × Char)) :=
  match files.stat_fields with
  | none => Outcome.returns none
  | some fields =>
    if fields.length < 24 then Outcome.returns none
    else
      let f1 := fields.getD 1 []
      let name_len : Int := (f1.length : Int) - 2
      if f1.head? ≠ some '(' ∨ f1.get? (name_len + 1).toNat ≠ some ')' then
        Outcome.returns none
      else
        let name := strncpy_name ((f1.drop 1).take name_len.toNat)
        match ps_read_tasks files with
        | Outcome.killed => Outcome.killed
        | Outcome.returns none => Outcome.returns none
        | Outcome.returns (some tasks) =>
          let num_lwp := (tasks.takeWhile (fun t => t ≠ 0)).length % 2 ^ 32
          let num_proc := 1
          if num_proc = 0 then
            Outcome.returns (some
              ({ name := name, num_proc := num_proc, num_lwp := num_lwp, vmem_rss := 0,
                 vmem_minflt := 0, vmem_majflt := 0, cpu_user := 0, cpu_system := 0 },
               '\x00'))
          else
            let vmem_minflt := toU pf.long_bits (atol pf (fields.getD 9 []))
            let vmem_majflt := toU pf.long_bits (atol pf (fields.getD 11 []))
            let cpu_user := toU 64 (atoll (fields.getD 13 []))
            let cpu_system := toU 64 (atoll (fields.getD 14 []))
            let vmem_rss := toU pf.long_bits (atol pf (fields.getD 23 []))
            Outcome.returns (some
              ({ name := name, num_proc := num_proc, num_lwp := num_lwp,
                 vmem_rss := vmem_rss * toU pf.long_bits pf.pagesize_g % 2 ^ pf.long_bits,
                 vmem_minflt := vmem_minflt, vmem_majflt := vmem_majflt,
                 cpu_user := cpu_user * 1000000 % 2 ^ 64 / CONFIG_HZ pf,
                 cpu_system := cpu_system * 1000000 % 2 ^ 64 / CONFIG_HZ pf },
               (fields.getD 2 []).headD '\x00'))

/-- The six `int` counters of `ps_read`. -/
structure Counters where
  running : Int
  sleeping : Int
  zombies : Int
  stopped : Int
  paging : Int
  blocked : Int
deriving DecidableEq

/-- The `switch (state)` of the Linux `ps_read`. -/
def count_state (c : Counters) (state : Char) : Counters :=
  if state = 'R' then { c with running := wrapInt (c.running + 1) }
  else if state = 'S' then { c with sleeping := wrapInt (c.sleeping + 1) }
  else if state = 'D' then { c with blocked := wrapInt (c.blocked + 1) }
  else if state = 'Z' then { c with zombies := wrapInt (c.zombies + 1) }
  else if state = 'T' then { c with stopped := wrapInt (c.stopped + 1) }
  else if state = 'W' then { c with paging := wrapInt (c.paging + 1) }
  else c

/-- One name `readdir` yields for `/proc`, with what is found under `/proc/<pid>/`
for `pid = atoi (d_name)`. -/
structure ProcDirent where
  d_name : List Char
  files : ProcFiles

/-- The counters and the list `list_head_g` during the `readdir` loop of `ps_read`. -/
structure ReadState where
  cnt : Counters
  list : List procstat
deriving DecidableEq

/-- One iteration of the `readdir` loop of the Linux `ps_read`. -/
def ps_read_entry (pf : Platform) (st : ReadState) (ent : ProcDirent) : Outcome ReadState :=
  if !isdigit (ent.d_name.headD '\x00') then Outcome.returns st
  else if atoi ent.d_name < 1 then Outcome.returns st
  else
    match ps_read_process pf ent.files with
    | Outcome.killed => Outcome.killed
    | Outcome.returns none => Outcome.returns st
    | Outcome.returns (some (ps, state)) =>
      Outcome.returns
        { cnt := count_state st.cnt state,
          list := if st.list ≠ [] then ps_list_add pf st.list ps else st.list }

/-- The `readdir` loop of the Linux `ps_read`. -/
def ps_read_loop (pf : Platform) : ReadState → List ProcDirent → Outcome ReadState
  | st, [] => Outcome.returns st
  | st, ent :: rest =>
    match ps_read_entry pf st ent with
    | Outcome.killed => Outcome.killed
    | Outcome.returns st1 => ps_read_loop pf st1 rest

/-- The loop `for (ps_ptr = list_head_g; ...) ps_submit_proc (ps_ptr)`. -/
def ps_submit_list (pf : Platform) : List procstat → List Submission
  | [] => []
  | ps :: rest => ps_submit_proc pf ps ++ ps_submit_list pf rest

/-- The start values of the six counters. -/
def Counters.zero : Counters :=
  { running := 0, sleeping := 0, zombies := 0, stopped := 0, paging := 0, blocked := 0 }

/-- Function `ps_read` under `KERNEL_LINUX`. `proc` is `none` when `opendir ("/proc")` fails,
else the directory entries in `readdir` order. The value returned is `list_head_g`
after the call and the submissions made; a process killed inside the loop has
submitted nothing in this call. -/
def ps_read_linux (pf : Platform) (list_head_g : List procstat)
    (proc : Option (List ProcDirent)) : Outcome (List procstat × List Submission) :=
  let list := ps_list_reset list_head_g
  match proc with
  | none => Outcome.returns (list, [])
  | some ents =>
    match ps_read_loop pf { cnt := Counters.zero, list := list } ents with
    | Outcome.killed => Outcome.killed
    | Outcome.returns st =>
      Outcome.returns
        (st.list,
         ps_submit pf st.cnt.running st.cnt.sleeping st.cnt.zombies st.cnt.stopped
            st.cnt.paging st.cnt.blocked
          ++ ps_submit_list pf st.list)

/-! ## Mach scanner -/

/-- Constant `TH_STATE_RUNNING` of `<mach/thread_info.h>`. -/
def TH_STATE_RUNNING : Int := 1
/-- Constant `TH_STATE_STOPPED` of `<mach/thread_info.h>`. -/
def TH_STATE_STOPPED : Int := 2
/-- Constant `TH_STATE_WAITING` of `<mach/thread_info.h>`. -/
def TH_STATE_WAITING : Int := 3
/-- Constant `TH_STATE_UNINTERRUPTIBLE` of `<mach/thread_info.h>`. -/
def TH_STATE_UNINTERRUPTIBLE : Int := 4
/-- Constant `TH_STATE_HALTED` of `<mach/thread_info.h>`. -/
def TH_STATE_HALTED : Int := 5

/-- One thread port: what `thread_info (..., THREAD_BASIC_INFO, ...)` yields, `none`
when the call fails, else `thread_data.run_state`. -/
structure MachThread where
  run_state : Option Int
deriving DecidableEq

/-- One task port: what `task_threads` yields, `none` when the call fails. -/
structure MachTask where
  threads : Option (List MachThread)
deriving DecidableEq

/-- One processor set: whether `host_processor_set_priv` succeeds and what
`processor_set_tasks` yields, `none` when that call fails. -/
structure MachPset where
  priv_ok : Bool
  tasks : Option (List MachTask)
deriving DecidableEq

/-- Function `ps_init` under `HAVE_THREAD_INFO`: the global `pset_list` afterwards; a failed
`host_processor_sets` leaves `pset_list = NULL`, `pset_list_len = 0`. -/
def ps_init_mach (host_processor_sets : Option (List MachPset)) : List MachPset :=
  match host_processor_sets with
  | none => []
  | some l => l

/-- The `switch (thread_data.run_state)` of the Mach `ps_read`. In the `default` case
the source changes no counter and calls `syslog`; that call (its `%s` is handed the
`int` run state) is not part of the model. -/
def count_run_state (c : Counters) (run_state : Int) : Counters :=
  if run_state = TH_STATE_RUNNING then { c with running := wrapInt (c.running + 1) }
  else if run_state = TH_STATE_STOPPED ∨ run_state = TH_STATE_HALTED then
    { c with stopped := wrapInt (c.stopped + 1) }
  else if run_state = TH_STATE_WAITING then { c with sleeping := wrapInt (c.sleeping + 1) }
  else if run_state = TH_STATE_UNINTERRUPTIBLE then { c with blocked := wrapInt (c.blocked + 1) }
  else c

/-- One iteration of the `for (thread_list)` loop. -/
def ps_read_thread (c : Counters) (th : MachThread) : Counters :=
  match th.run_state with
  | none => c
  | some rs => count_run_state c rs

/-- One iteration of the `for (task_list)` loop. -/
def ps_read_task (c : Counters) (task : MachTask) : Counters :=
  match task.threads with
  | none => { c with zombies := wrapInt (c.zombies + 1) }
  | some ths => ths.foldl ps_read_thread c

/-- One iteration of the `for (pset_list)` loop. -/
def ps_read_pset (c : Counters) (pset : MachPset) : Counters :=
  if !pset.priv_ok then c
  else
    match pset.tasks with
    | none => c
    | some tasks => tasks.foldl ps_read_task c

/-- Function `ps_read` under `HAVE_THREAD_INFO`: the submissions made. The port and memory
releases have no effect on what is submitted and are left out. -/
def ps_read_mach (pf : Platform) (pset_list : List MachPset) : List Submission :=
  let c := pset_list.foldl ps_read_pset Counters.zero
  ps_submit pf c.running c.sleeping c.zombies c.stopped (-1) c.blocked

/-! ## The samples of a cycle -/

/-- What one `/proc` entry contributes to a cycle: `none` when the loop of `ps_read`
takes one of its three `continue`s, else the sample `ps_read_process` filled in;
`killed` when the process dies reading the entry. -/
def ps_read_sample (pf : Platform) (ent : ProcDirent) : Outcome (Option (procstat × Char)) :=
  if !isdigit (ent.d_name.headD '\x00') then Outcome.returns none
  else if atoi ent.d_name < 1 then Outcome.returns none
  else ps_read_process pf ent.files

/-- The sample of a `/proc` entry, `none` when there is none. -/
def ps_read_sample? (pf : Platform) (ent : ProcDirent) : Option (procstat × Char) :=
  match ps_read_sample pf ent with
  | Outcome.returns (some s) => some s
  | _ => none

/-- The successfully read samples of a cycle, in `readdir` order. -/
def ps_read_samples (pf : Platform) (ents : List ProcDirent) : List (procstat × Char) :=
  ents.filterMap (ps_read_sample? pf)

/-- The state characters the `switch` of the Linux `ps_read` has a `case` for. -/
def recognized (state : Char) : Bool :=
  state = 'R' || state = 'S' || state = 'D' || state = 'Z' || state = 'T' || state = 'W'

/-- Number of samples with the given state character. -/
def state_count (samples : List (procstat × Char)) (state : Char) : Nat :=
  (samples.filter (fun s => s.2 = state)).length

/-- The samples whose stored name equals `name` (the `strcmp` of `ps_list_add`). -/
def samples_named (samples : List (procstat × Char)) (name : List Char) :
    List (procstat × Char) :=
  samples.filter (fun s => s.1.name = name)

/-- The resident-page count `atol (fields[23])` read from the status record of a
`/proc` entry. -/
def rss_pages (pf : Platform) (ent : ProcDirent) : Int :=
  atol pf ((ent.files.stat_fields.getD []).getD 23 [])

/-- The `/proc` entries of a cycle that yield a sample whose stored name is `name`. -/
def entries_named (pf : Platform) (ents : List ProcDirent) (name : List Char) :
    List ProcDirent :=
  ents.filter (fun e =>
    match ps_read_sample? pf e with
    | some s => decide (s.1.name = name)
    | none => false)

/-- The ids `ps_read_tasks` keeps of a listing of `/proc/<pid>/task`: the values
`atoi (d_name)` of the names starting with a digit, in listing order, without the
zeros. -/
def task_ids (ents : List (List Char)) : List Int :=
  ((ents.filter (fun d => isdigit (d.headD '\x00'))).map atoi).filter (fun v => v ≠ 0)

/-- Number of names of a listing that start with a digit. -/
def task_digit_count (ents : List (List Char)) : Nat :=
  (ents.filter (fun d => isdigit (d.headD '\x00'))).length

/-- The variables of `ps_read_tasks` when the array has `size` elements: `ids`
followed by zeros. -/
def task_state (ids : List Int) (size : Nat) : TaskList :=
  { list := some (ids ++ List.replicate (size - ids.length) 0),
    list_size := size, list_len := ids.length }

/-! ## Example inputs -/

/-- An LP64 little-endian Linux host: 4096-byte pages, no `CONFIG_HZ` from the kernel
headers. -/
def examplePlatform : Platform :=
  { long_bits := 64, pagesize_g := 4096, linux_config_hz := none, curtime := 1000,
    strcmp_overrun := strcmp_overrun_le 64 }

/-- An ILP32 little-endian Linux host with 4096-byte pages. -/
def examplePlatform32 : Platform :=
  { long_bits := 32, pagesize_g := 4096, linux_config_hz := none, curtime := 1000,
    strcmp_overrun := strcmp_overrun_le 32 }

/-- A 24-field status record with the given name field, state, user and system
ticks and resident pages. -/
def exampleStat (name state utime stime rss : String) : List (List Char) :=
  ["1", name, state, "0", "0", "0", "0", "0", "0", "7", "0", "3", "0", utime, stime,
   "0", "0", "0", "0", "0", "0", "0", "0", rss].map String.toList

/-- A process with a readable status record and two threads. -/
def exampleFiles (name state utime stime rss : String) : ProcFiles :=
  { stat_fields := some (exampleStat name state utime stime rss),
    task_entries := some [".".toList, "..".toList, "12".toList, "13".toList],
    realloc_ok := fun _ => true }

/-- A process that exits between `opendir` and the first `readdir` of its task
directory: the status record is readable, the directory opens and lists no thread. -/
def exampleGoneFiles : ProcFiles :=
  { stat_fields := some (exampleStat "(gone)" "R" "1" "2" "3"),
    task_entries := some [".".toList, "..".toList],
    realloc_ok := fun _ => true }

/-- A registry of one entry whose name fills all 256 bytes of the buffer. -/
def exampleLongRegistry : List procstat :=
  (ps_config true [] "CollectName".toList (List.replicate 256 'x')).2

/-- A process whose name fills all 256 bytes of the buffer. -/
def exampleLongFiles : ProcFiles :=
  { stat_fields := some (exampleStat "" "R" "1" "2" "3" |>.set 1
      (['('] ++ List.replicate 256 'x' ++ [')'])),
    task_entries := some [".".toList, "..".toList, "12".toList],
    realloc_ok := fun _ => true }

/-- A process whose status record has only 10 fields. -/
def exampleShortFiles : ProcFiles :=
  { stat_fields := some (["7", "(a)", "S", "0", "0", "0", "0", "0", "0", "0"].map String.toList),
    task_entries := some ["7".toList],
    realloc_ok := fun _ => true }

/-- The registry after the directives `CollectName a` and `CollectName b`. -/
def exampleRegistry : List procstat :=
  (ps_config true (ps_config true [] "CollectName".toList "a".toList).2
    "CollectName".toList "b".toList).2

/-- The registry after the directive `CollectName a` given twice. -/
def exampleRegistryTwice : List procstat :=
  (ps_config true (ps_config true [] "CollectName".toList "a".toList).2
    "CollectName".toList "a".toList).2

/-! ## Theorems -/

/-! ### Registry -/

theorem ps_list_link_eq (l : List procstat) (new : procstat) (h : l ≠ []) :
    ps_list_link l new = l ++ [new] := by
  induction l with
  | nil => exact absurd rfl h
  | cons p t ih =>
    cases t with
    | nil => rfl
    | cons q rest =>
      simp only [ps_list_link, List.cons_append, List.cons.injEq, true_and]
      exact ih (by simp)

theorem ps_config_append (list : List procstat) (key value : List Char)
    (hkey : strcasecmp_eq key "CollectName".toList = true) :
    ps_config true list key value = (0, list ++ [procstat_new value]) := by
  unfold ps_config ps_list_append
  simp only [hkey, if_true]
  by_cases hl : list = []
  · subst hl; simp
  · simp [hl, ps_list_link_eq list _ hl]

/-- C1 (counterexample): after the directive `CollectName a` is handled twice on an
empty registry the list holds two entries named `a`, and the second handling changed
the list. -/
theorem C1_register_twice_duplicates :
    ¬ ((exampleRegistryTwice.filter (fun p => p.name = "a".toList)).length = 1 ∧
       exampleRegistryTwice = (ps_config true [] "CollectName".toList "a".toList).2) := by
  decide

/-- C1 (amended): every successful handling of `CollectName name` returns 0 and links
one new zeroed entry behind the last node, leaving the existing entries as they are;
handled twice, the directive leaves two more entries with that name than before, the
first at the position the first handling gave it, the second right behind it. -/
theorem C1_register_appends (list : List procstat) (key name : List Char)
    (hkey : strcasecmp_eq key "CollectName".toList = true) :
    ps_config true list key name = (0, list ++ [procstat_new name]) ∧
    ps_config true (ps_config true list key name).2 key name
      = (0, list ++ [procstat_new name, procstat_new name]) ∧
    ((ps_config true (ps_config true list key name).2 key name).2.filter
        (fun p => p.name = strncpy_name name)).length
      = (list.filter (fun p => p.name = strncpy_name name)).length + 2 := by
  have h1 := ps_config_append list key name hkey
  have h2 := ps_config_append (list ++ [procstat_new name]) key name hkey
  refine ⟨h1, ?_, ?_⟩
  · rw [h1]; simpa using h2
  · rw [h1]
    simp only [h2, List.append_assoc, List.singleton_append, List.filter_append,
      List.length_append]
    simp [procstat_new, List.filter]

/-- C1 (witness): the directive given twice, in lower case, on a registry of two entries. -/
theorem C1_register_appends_witness :
    strcasecmp_eq "collectname".toList "CollectName".toList = true ∧
    ps_config true (ps_config true exampleRegistry "collectname".toList "a".toList).2
        "collectname".toList "a".toList
      = (0, exampleRegistry ++ [procstat_new "a".toList, procstat_new "a".toList]) :=
  ⟨by decide, (C1_register_appends exampleRegistry "collectname".toList "a".toList (by decide)).2.1⟩

/-! ### Emission -/

theorem decLenAux_le (fuel n k : Nat) (h : n < 10 ^ (k + 1)) : decLenAux fuel n ≤ k + 1 := by
  induction fuel generalizing n k with
  | zero => simp [decLenAux]
  | succ f ih =>
    unfold decLenAux
    split
    · omega
    · rename_i hn
      cases k with
      | zero => simp at h; omega
      | succ k =>
        have : n / 10 < 10 ^ (k + 1) := by
          rw [Nat.div_lt_iff_lt_mul (by norm_num)]
          calc n < 10 ^ (k + 1 + 1) := h
            _ = 10 ^ (k + 1) * 10 := by ring
        have := ih (n / 10) k this
        omega

theorem decLen_le (n : Nat) (h : n < 2 ^ 32) : decLen n ≤ 10 := by
  apply decLenAux_le n n 9
  calc n < 2 ^ 32 := h
    _ ≤ 10 ^ (9 + 1) := by norm_num

theorem intLen_le (x : Int) (h1 : -2 ^ 31 ≤ x) (h2 : x < 2 ^ 31) : intLen x ≤ 11 := by
  have hn : x.natAbs < 2 ^ 32 := by omega
  have := decLen_le x.natAbs hn
  unfold intLen
  split <;> omega

theorem ps_submit_eq (pf : Platform) (a b c d e f : Int)
    (ha : isInt a) (hb : isInt b) (hc : isInt c) (hd : isInt d) (he : isInt e) (hf : isInt f) :
    ps_submit pf a b c d e f
      = [{ type := "processes".toList, inst := "-".toList, time := curtime_u pf,
           values := [a, b, c, d, e, f] }] := by
  have ht : decLen (curtime_u pf) ≤ 10 :=
    decLen_le _ (by unfold curtime_u; exact Nat.mod_lt _ (by norm_num))
  have la := intLen_le a ha.1 ha.2
  have lb := intLen_le b hb.1 hb.2
  have lc := intLen_le c hc.1 hc.2
  have ld := intLen_le d hd.1 hd.2
  have le := intLen_le e he.1 he.2
  have lf := intLen_le f hf.1 hf.2
  unfold ps_submit ps_submit_len BUFSIZE
  simp only [List.map_cons, List.map_nil, List.sum_cons, List.sum_nil]
  rw [if_neg (by omega)]

theorem wrapInt_isInt (x : Int) : isInt (wrapInt x) := by
  unfold isInt wrapInt wrapS
  constructor <;> omega

theorem wrapInt_of_isInt (x : Int) (h : isInt x) : wrapInt x = x := by
  unfold isInt at h
  unfold wrapInt wrapS
  omega

/-! ### The loop of the Linux `ps_read` -/

theorem ps_list_add_guard (pf : Platform) (l : List procstat) (ps : procstat) :
    (if l ≠ [] then ps_list_add pf l ps else l) = ps_list_add pf l ps := by
  cases l with
  | nil => simp [ps_list_add]
  | cons p t => simp

theorem ps_read_entry_eq (pf : Platform) (st : ReadState) (ent : ProcDirent) :
    ps_read_entry pf st ent =
      match ps_read_sample pf ent with
      | Outcome.killed => Outcome.killed
      | Outcome.returns none => Outcome.returns st
      | Outcome.returns (some s) =>
        Outcome.returns { cnt := count_state st.cnt s.2, list := ps_list_add pf st.list s.1 } := by
  unfold ps_read_entry ps_read_sample
  split
  · rfl
  · split
    · rfl
    · cases ps_read_process pf ent.files with
      | killed => rfl
      | returns o =>
        cases o with
        | none => rfl
        | some s =>
          obtain ⟨ps, state⟩ := s
          simp only [ps_list_add_guard]

theorem ps_read_entry_none (pf : Platform) (st : ReadState) (ent : ProcDirent)
    (h : ps_read_sample pf ent = Outcome.returns none) :
    ps_read_entry pf st ent = Outcome.returns st := by
  rw [ps_read_entry_eq, h]

theorem ps_read_entry_some (pf : Platform) (st : ReadState) (ent : ProcDirent)
    (s : procstat × Char) (h : ps_read_sample pf ent = Outcome.returns (some s)) :
    ps_read_entry pf st ent
      = Outcome.returns
          { cnt := count_state st.cnt s.2, list := ps_list_add pf st.list s.1 } := by
  rw [ps_read_entry_eq, h]

theorem ps_read_loop_eq (pf : Platform) (ents : List ProcDirent) (st : ReadState)
    (hnk : ∀ e ∈ ents, ps_read_sample pf e ≠ Outcome.killed) :
    ps_read_loop pf st ents =
      Outcome.returns
        { cnt := ((ps_read_samples pf ents).map Prod.snd).foldl count_state st.cnt,
          list := ((ps_read_samples pf ents).map Prod.fst).foldl (ps_list_add pf) st.list } := by
  induction ents generalizing st with
  | nil => rfl
  | cons e rest ih =>
    have hrest : ∀ e1 ∈ rest, ps_read_sample pf e1 ≠ Outcome.killed :=
      fun e1 he1 => hnk e1 (List.mem_cons_of_mem _ he1)
    cases h : ps_read_sample pf e with
    | killed => exact absurd h (hnk e (List.mem_cons_self _ _))
    | returns o =>
      cases o with
      | none =>
        rw [ps_read_loop, ps_read_entry_none pf st e h]
        simp only [ih st hrest, ps_read_samples, List.filterMap_cons, ps_read_sample?, h]
      | some s =>
        rw [ps_read_loop, ps_read_entry_some pf st e s h]
        simp only [ih _ hrest, ps_read_samples, List.filterMap_cons, ps_read_sample?, h,
          List.map_cons, List.foldl_cons]

theorem ps_read_loop_skip (pf : Platform) (pre post : List ProcDirent) (ent : ProcDirent)
    (st : ReadState) (h : ps_read_sample pf ent = Outcome.returns none) :
    ps_read_loop pf st (pre ++ ent :: post) = ps_read_loop pf st (pre ++ post) := by
  induction pre generalizing st with
  | nil =>
    simp only [List.nil_append]
    rw [ps_read_loop, ps_read_entry_none pf st ent h]
  | cons e rest ih =>
    simp only [List.cons_append]
    rw [ps_read_loop, ps_read_loop]
    cases ps_read_entry pf st e with
    | killed => rfl
    | returns st1 => exact ih st1

theorem ps_read_linux_killed_example :
    ps_read_tasks exampleGoneFiles = Outcome.killed ∧
    ps_read_linux examplePlatform exampleRegistry
        (some [⟨"12".toList, exampleFiles "(a)" "S" "250" "50" "100"⟩,
               ⟨"13".toList, exampleGoneFiles⟩]) = Outcome.killed := by
  decide

set_option maxRecDepth 100000 in
theorem strcmp_full_names_example :
    (exampleLongRegistry.map (fun p => p.name.length)) = [256] ∧
    (ps_read_sample? examplePlatform ⟨"12".toList, exampleLongFiles⟩).map
        (fun s => (s.1.name.length, decide (s.1.name = List.replicate 256 'x')))
      = some (256, true) ∧
    (ps_read_linux examplePlatform exampleLongRegistry
        (some [⟨"12".toList, exampleLongFiles⟩])).val?.map
        (fun r => r.1.map procstat.num_proc) = some [0] := by
  decide

theorem count_state_unrecognized (c : Counters) (state : Char) (h : recognized state = false) :
    count_state c state = c := by
  unfold recognized at h
  simp only [Bool.or_eq_false_iff, decide_eq_false_iff_not] at h
  obtain ⟨⟨⟨⟨⟨hR, hS⟩, hD⟩, hZ⟩, hT⟩, hW⟩ := h
  simp [count_state, hR, hS, hD, hZ, hT, hW]

/-- C3 (counterexample): a sample named `a` with the state character `X` leaves the six
counters alone but changes the accumulators of the tracked entry `a`. -/
theorem C3_unrecognized_state_changes_group :
    recognized 'X' = false ∧
    ps_read_sample examplePlatform ⟨"12".toList, exampleFiles "(a)" "X" "250" "50" "100"⟩
      = Outcome.returns (some (⟨"a".toList, 1, 2, 409600, 7, 3, 2500000, 500000⟩, 'X')) ∧
    (ps_read_entry examplePlatform ⟨Counters.zero, ps_list_reset exampleRegistry⟩
        ⟨"12".toList, exampleFiles "(a)" "X" "250" "50" "100"⟩).val?.map ReadState.cnt
      = some Counters.zero ∧
    ¬ ((ps_read_entry examplePlatform ⟨Counters.zero, ps_list_reset exampleRegistry⟩
          ⟨"12".toList, exampleFiles "(a)" "X" "250" "50" "100"⟩).val?.map ReadState.list
        = some (ps_list_reset exampleRegistry)) := by
  decide

/-- C3 (amended): for a successfully read sample whose state character is none of
R, S, D, Z, T, W the loop body returns with none of the six counters changed; the
sample is still handed to `ps_list_add`, so the first tracked entry whose name the
`strcmp` finds equal to the sample's accumulates it. -/
theorem C3_unrecognized_state_counters_unchanged (pf : Platform) (st : ReadState)
    (ent : ProcDirent) (ps : procstat) (state : Char)
    (hs : ps_read_sample pf ent = Outcome.returns (some (ps, state)))
    (hu : recognized state = false) :
    ps_read_entry pf st ent
      = Outcome.returns { cnt := st.cnt, list := ps_list_add pf st.list ps } := by
  rw [ps_read_entry_some pf st ent (ps, state) hs, count_state_unrecognized st.cnt state hu]

/-- C3 (witness): a sample named `b` with the state character `X`. -/
theorem C3_unrecognized_state_counters_unchanged_witness :
    ps_read_entry examplePlatform ⟨Counters.zero, ps_list_reset exampleRegistry⟩
        ⟨"12".toList, exampleFiles "(b)" "X" "250" "50" "100"⟩
      = Outcome.returns
          { cnt := Counters.zero,
            list := ps_list_add examplePlatform (ps_list_reset exampleRegistry)
                      ⟨"b".toList, 1, 2, 409600, 7, 3, 2500000, 500000⟩ } :=
  C3_unrecognized_state_counters_unchanged examplePlatform
    ⟨Counters.zero, ps_list_reset exampleRegistry⟩
    ⟨"12".toList, exampleFiles "(b)" "X" "250" "50" "100"⟩
    ⟨"b".toList, 1, 2, 409600, 7, 3, 2500000, 500000⟩ 'X' (by decide) (by decide)

/-! ### Failure of the top-level listing -/

theorem isInt_zero : isInt 0 := by unfold isInt; omega

theorem isInt_neg_one : isInt (-1) := by unfold isInt; omega

/-- C4 (counterexample): on Mach, with `pset_list` left empty by a failed
`host_processor_sets`, `ps_read` still submits a record. -/
theorem C4_mach_submits_on_empty_pset_list :
    ps_read_mach examplePlatform (ps_init_mach none) ≠ [] := by
  decide

/-- C4 (amended): on Linux, when `/proc` cannot be opened, `ps_read` returns having
reset the list and submitted no record at all; on Mach, when `host_processor_sets`
failed in `ps_init`, `ps_read` submits no per-name record and exactly one global
record, with the values 0, 0, 0, 0, -1, 0. -/
theorem C4_listing_failure :
    (∀ (pf : Platform) (list_head_g : List procstat),
      ps_read_linux pf list_head_g none = Outcome.returns (ps_list_reset list_head_g, [])) ∧
    (∀ pf : Platform, ps_read_mach pf (ps_init_mach none)
      = [{ type := "processes".toList, inst := "-".toList, time := curtime_u pf,
           values := [0, 0, 0, 0, -1, 0] }]) := by
  constructor
  · intro pf l; rfl
  · intro pf
    exact ps_submit_eq pf 0 0 0 0 (-1) 0 isInt_zero isInt_zero isInt_zero isInt_zero
      isInt_neg_one isInt_zero

/-! ### The per-name CPU-time record -/

theorem and_low32 (x : Nat) : (x &&& 0xFFFFFFFF) % 2 ^ 32 = x % 2 ^ 32 := by
  have h := Nat.and_pow_two_sub_one_eq_mod x 32
  norm_num at h
  rw [h]
  exact Nat.mod_mod _ _

/-- C7: the second record `ps_submit_proc` submits is the `ps_cputime` record of the
entry, and its two values are `cpu_user` and `cpu_system` reduced modulo 2^32, user
first and system second; an accumulated sum of 4294967296 + 42 is emitted as 42. -/
theorem C7_cputime_low_32_bits :
    (∀ (pf : Platform) (ps : procstat),
      (ps_submit_proc pf ps).get? 1
        = some { type := "ps_cputime".toList, inst := ps.name, time := curtime_u pf,
                 values := [((ps.cpu_user % 2 ^ 32 : Nat) : Int),
                            ((ps.cpu_system % 2 ^ 32 : Nat) : Int)] }) ∧
    (∀ (pf : Platform) (ps : procstat),
      ((ps_submit_proc pf { ps with cpu_user := 4294967296 + 42,
                                    cpu_system := 4294967296 + 42 }).get? 1).map
          (fun r => r.values) = some [42, 42]) := by
  constructor
  · intro pf ps
    simp only [ps_submit_proc, List.get?, and_low32]
  · intro pf ps
    simp only [ps_submit_proc, List.get?, and_low32, Option.map]
    norm_num

/-! ### A status record with too few fields -/

theorem ps_read_process_short (pf : Platform) (files : ProcFiles) (fields : List (List Char))
    (hf : files.stat_fields = some fields) (hl : fields.length < 24) :
    ps_read_process pf files = Outcome.returns none := by
  unfold ps_read_process
  simp only [hf, hl, if_true]

/-- C8: a process whose status line splits into fewer than 24 fields makes
`ps_read_process` fail (return -1), and the cycle (whether it completes, the list
afterwards and everything submitted, so the six global counts and every tracked
group's accumulators) is the same as the cycle over the same `/proc` listing without
that process. -/
theorem C8_short_record_skipped (pf : Platform) (list_head_g : List procstat)
    (pre post : List ProcDirent) (ent : ProcDirent) (fields : List (List Char))
    (hf : ent.files.stat_fields = some fields) (hl : fields.length < 24) :
    ps_read_process pf ent.files = Outcome.returns none ∧
    ps_read_linux pf list_head_g (some (pre ++ ent :: post))
      = ps_read_linux pf list_head_g (some (pre ++ post)) := by
  have hp := ps_read_process_short pf ent.files fields hf hl
  have hs : ps_read_sample pf ent = Outcome.returns none := by
    unfold ps_read_sample
    split
    · rfl
    · split
      · rfl
      · exact hp
  refine ⟨hp, ?_⟩
  unfold ps_read_linux
  simp only [ps_read_loop_skip pf pre post ent _ hs]

/-- C8 (witness): a status record of 10 fields between two valid processes. -/
theorem C8_short_record_skipped_witness :
    ps_read_process examplePlatform exampleShortFiles = Outcome.returns none ∧
    ps_read_linux examplePlatform exampleRegistry
        (some ([⟨"12".toList, exampleFiles "(a)" "S" "250" "50" "100"⟩]
          ++ ⟨"7".toList, exampleShortFiles⟩
          :: [⟨"13".toList, exampleFiles "(b)" "R" "1" "2" "200"⟩]))
      = ps_read_linux examplePlatform exampleRegistry
        (some ([⟨"12".toList, exampleFiles "(a)" "S" "250" "50" "100"⟩]
          ++ [⟨"13".toList, exampleFiles "(b)" "R" "1" "2" "200"⟩])) :=
  C8_short_record_skipped examplePlatform exampleRegistry
    [⟨"12".toList, exampleFiles "(a)" "S" "250" "50" "100"⟩]
    [⟨"13".toList, exampleFiles "(b)" "R" "1" "2" "200"⟩]
    ⟨"7".toList, exampleShortFiles⟩
    (["7", "(a)", "S", "0", "0", "0", "0", "0", "0", "0"].map String.toList) rfl (by decide)

/-! ### A cycle without samples -/

theorem ps_list_reset_names (l : List procstat) :
    (ps_list_reset l).map procstat.name = l.map procstat.name := by
  induction l with
  | nil => rfl
  | cons p t ih => simp [ps_list_reset, procstat_reset, ih]

theorem ps_list_reset_length (l : List procstat) : (ps_list_reset l).length = l.length := by
  induction l with
  | nil => rfl
  | cons p t ih => simp [ps_list_reset, ih]

theorem ps_list_reset_mem (l : List procstat) (p : procstat) (h : p ∈ ps_list_reset l) :
    ∃ q ∈ l, p = procstat_reset q := by
  induction l with
  | nil => simp [ps_list_reset] at h
  | cons q t ih =>
    simp only [ps_list_reset, List.mem_cons] at h
    rcases h with h | h
    · exact ⟨q, List.mem_cons_self _ _, h⟩
    · obtain ⟨r, hr, hp⟩ := ih h
      exact ⟨r, List.mem_cons_of_mem _ hr, hp⟩

theorem ps_read_loop_no_samples (pf : Platform) (ents : List ProcDirent) (st : ReadState)
    (h : ∀ e ∈ ents, ps_read_sample pf e = Outcome.returns none) :
    ps_read_loop pf st ents = Outcome.returns st := by
  induction ents generalizing st with
  | nil => rfl
  | cons e rest ih =>
    rw [ps_read_loop, ps_read_entry_none pf st e (h e (List.mem_cons_self _ _))]
    exact ih st (fun e1 he1 => h e1 (List.mem_cons_of_mem _ he1))

/-- C9: a Linux cycle in which every `/proc` entry is skipped or fails to be read, so
that no sample is scanned, returns and leaves the list as `ps_list_reset` made it:
same entries in the same order with the same names, all seven accumulators of every
entry zero; it submits the global record with six zeros, followed by the per-name
records, whose values are all zero. -/
theorem C9_cycle_without_samples (pf : Platform) (list_head_g : List procstat)
    (ents : List ProcDirent) (h : ∀ e ∈ ents, ps_read_sample pf e = Outcome.returns none) :
    ps_read_linux pf list_head_g (some ents)
      = Outcome.returns
          (ps_list_reset list_head_g,
           { type := "processes".toList, inst := "-".toList, time := curtime_u pf,
             values := [0, 0, 0, 0, 0, 0] }
             :: ps_submit_list pf (ps_list_reset list_head_g)) ∧
    (ps_list_reset list_head_g).map procstat.name = list_head_g.map procstat.name ∧
    (ps_list_reset list_head_g).length = list_head_g.length ∧
    (∀ p ∈ ps_list_reset list_head_g,
      p.num_proc = 0 ∧ p.num_lwp = 0 ∧ p.vmem_rss = 0 ∧ p.vmem_minflt = 0 ∧
      p.vmem_majflt = 0 ∧ p.cpu_user = 0 ∧ p.cpu_system = 0 ∧
      ps_submit_proc pf p
        = [ { type := "ps_rss".toList, inst := p.name, time := curtime_u pf, values := [0] },
            { type := "ps_cputime".toList, inst := p.name, time := curtime_u pf,
              values := [0, 0] },
            { type := "ps_count".toList, inst := p.name, time := curtime_u pf,
              values := [0, 0] } ]) := by
  refine ⟨?_, ps_list_reset_names _, ps_list_reset_length _, ?_⟩
  · unfold ps_read_linux
    simp only [ps_read_loop_no_samples pf ents _ h, Counters.zero]
    rw [ps_submit_eq pf 0 0 0 0 0 0 isInt_zero isInt_zero isInt_zero isInt_zero isInt_zero
      isInt_zero]
    rfl
  · intro p hp
    obtain ⟨q, _, rfl⟩ := ps_list_reset_mem _ p hp
    simp [procstat_reset, ps_submit_proc]

/-- C9 (witness): on a list whose accumulators an earlier cycle filled, a cycle whose
two entries yield no sample. -/
theorem C9_cycle_without_samples_witness :
    (ps_read_linux examplePlatform
        [⟨"a".toList, 1, 2, 409600, 7, 3, 2500000, 500000⟩, ⟨"b".toList, 0, 0, 0, 0, 0, 0, 0⟩]
        (some [⟨"self".toList, exampleFiles "(a)" "S" "250" "50" "100"⟩,
               ⟨"7".toList, exampleShortFiles⟩])).val?.map Prod.fst
      = some (ps_list_reset exampleRegistry) :=
  (congrArg (fun o => (Outcome.val? o).map Prod.fst)
    (C9_cycle_without_samples examplePlatform
      [⟨"a".toList, 1, 2, 409600, 7, 3, 2500000, 500000⟩, ⟨"b".toList, 0, 0, 0, 0, 0, 0, 0⟩]
      [⟨"self".toList, exampleFiles "(a)" "S" "250" "50" "100"⟩, ⟨"7".toList, exampleShortFiles⟩]
      (by decide)).1).trans (by decide)

/-! ### The global counts -/

theorem state_count_le (S : List (procstat × Char)) (c : Char) : state_count S c ≤ S.length := by
  unfold state_count
  exact List.length_filter_le _ _

theorem state_count_snoc (S : List (procstat × Char)) (x : procstat × Char) (c : Char) :
    state_count (S ++ [x]) c = state_count S c + (if x.2 = c then 1 else 0) := by
  unfold state_count
  by_cases h : x.2 = c <;> simp [List.filter_append, List.filter_cons, h]

theorem wrapInt_succ (n : Nat) (h : n + 1 < 2 ^ 31) : wrapInt ((n : Int) + 1) = (n : Int) + 1 := by
  apply wrapInt_of_isInt
  unfold isInt
  constructor <;> omega

theorem count_state_fold (S : List (procstat × Char)) (h : S.length < 2 ^ 31) :
    (S.map Prod.snd).foldl count_state Counters.zero
      = { running := state_count S 'R', sleeping := state_count S 'S',
          zombies := state_count S 'Z', stopped := state_count S 'T',
          paging := state_count S 'W', blocked := state_count S 'D' } := by
  induction S using List.reverseRecOn with
  | nil => rfl
  | append_singleton S x ih =>
    have hlen : S.length + 1 < 2 ^ 31 := by simpa using h
    have ih1 := ih (by omega)
    rw [List.map_append, List.foldl_append, ih1]
    simp only [List.map_cons, List.map_nil, List.foldl_cons, List.foldl_nil, state_count_snoc]
    have bR := state_count_le S 'R'
    have bS := state_count_le S 'S'
    have bZ := state_count_le S 'Z'
    have bT := state_count_le S 'T'
    have bW := state_count_le S 'W'
    have bD := state_count_le S 'D'
    unfold count_state
    by_cases hR : x.2 = 'R'
    · simp [hR, wrapInt_succ (state_count S 'R') (by omega)]
    by_cases hS : x.2 = 'S'
    · simp [hS, wrapInt_succ (state_count S 'S') (by omega)]
    by_cases hD : x.2 = 'D'
    · simp [hD, wrapInt_succ (state_count S 'D') (by omega)]
    by_cases hZ : x.2 = 'Z'
    · simp [hZ, wrapInt_succ (state_count S 'Z') (by omega)]
    by_cases hT : x.2 = 'T'
    · simp [hT, wrapInt_succ (state_count S 'T') (by omega)]
    by_cases hW : x.2 = 'W'
    · simp [hW, wrapInt_succ (state_count S 'W') (by omega)]
    simp [hR, hS, hD, hZ, hT, hW]

theorem state_count_sum (S : List (procstat × Char)) :
    state_count S 'R' + state_count S 'S' + state_count S 'Z' + state_count S 'T'
        + state_count S 'W' + state_count S 'D'
      = (S.filter (fun s => recognized s.2)).length := by
  induction S with
  | nil => rfl
  | cons x rest ih =>
    unfold state_count at ih ⊢
    simp only [List.filter_cons]
    by_cases hR : x.2 = 'R'
    · have hrec : recognized 'R' = true := by decide
      simp [hR, hrec]; omega
    by_cases hS : x.2 = 'S'
    · have hrec : recognized 'S' = true := by decide
      simp [hS, hrec]; omega
    by_cases hD : x.2 = 'D'
    · have hrec : recognized 'D' = true := by decide
      simp [hD, hrec]; omega
    by_cases hZ : x.2 = 'Z'
    · have hrec : recognized 'Z' = true := by decide
      simp [hZ, hrec]; omega
    by_cases hT : x.2 = 'T'
    · have hrec : recognized 'T' = true := by decide
      simp [hT, hrec]; omega
    by_cases hW : x.2 = 'W'
    · have hrec : recognized 'W' = true := by decide
      simp [hW, hrec]; omega
    have hrec : recognized x.2 = false := by simp [recognized, hR, hS, hD, hZ, hT, hW]
    simp [hR, hS, hD, hZ, hT, hW, hrec]; omega

theorem isInt_count (n : Nat) (h : n < 2 ^ 31) : isInt (n : Int) := by
  unfold isInt
  constructor <;> omega

/-- C5: in a Linux cycle that is not cut short (no process dies between the
`opendir` and the first `readdir` of its task directory, which would kill the
collector in an assertion) and has fewer than 2^31 samples (the range of the `int`
counters), `ps_read` returns, the first record submitted is the global record, and
its six values are, in the order running, sleeping, zombies, stopped, paging, blocked,
the numbers of successfully read samples whose state character is R, S, Z, T, W, D;
the six values add up to the number of samples with a recognized state character. -/
theorem C5_global_counts (pf : Platform) (list_head_g : List procstat)
    (ents : List ProcDirent)
    (hnk : ∀ e ∈ ents, ps_read_sample pf e ≠ Outcome.killed)
    (h : (ps_read_samples pf ents).length < 2 ^ 31) :
    ps_read_linux pf list_head_g (some ents)
      = Outcome.returns
          (((ps_read_samples pf ents).map Prod.fst).foldl (ps_list_add pf)
              (ps_list_reset list_head_g),
           { type := "processes".toList, inst := "-".toList, time := curtime_u pf,
             values := [(state_count (ps_read_samples pf ents) 'R' : Int),
                        (state_count (ps_read_samples pf ents) 'S' : Int),
                        (state_count (ps_read_samples pf ents) 'Z' : Int),
                        (state_count (ps_read_samples pf ents) 'T' : Int),
                        (state_count (ps_read_samples pf ents) 'W' : Int),
                        (state_count (ps_read_samples pf ents) 'D' : Int)] }
             :: ps_submit_list pf
                  (((ps_read_samples pf ents).map Prod.fst).foldl (ps_list_add pf)
                    (ps_list_reset list_head_g))) ∧
    state_count (ps_read_samples pf ents) 'R' + state_count (ps_read_samples pf ents) 'S'
        + state_count (ps_read_samples pf ents) 'Z' + state_count (ps_read_samples pf ents) 'T'
        + state_count (ps_read_samples pf ents) 'W' + state_count (ps_read_samples pf ents) 'D'
      = ((ps_read_samples pf ents).filter (fun s => recognized s.2)).length := by
  refine ⟨?_, state_count_sum _⟩
  have b := fun c => state_count_le (ps_read_samples pf ents) c
  unfold ps_read_linux
  simp only [ps_read_loop_eq pf ents _ hnk, count_state_fold _ h]
  rw [ps_submit_eq pf _ _ _ _ _ _
    (isInt_count _ (lt_of_le_of_lt (b 'R') h)) (isInt_count _ (lt_of_le_of_lt (b 'S') h))
    (isInt_count _ (lt_of_le_of_lt (b 'Z') h)) (isInt_count _ (lt_of_le_of_lt (b 'T') h))
    (isInt_count _ (lt_of_le_of_lt (b 'W') h)) (isInt_count _ (lt_of_le_of_lt (b 'D') h))]
  rfl

/-- C5 (witness): samples in the states S, R, S and X give the counts 1, 2, 0, 0, 0, 0. -/
theorem C5_global_counts_witness :
    (ps_read_linux examplePlatform exampleRegistry
        (some [⟨"12".toList, exampleFiles "(a)" "S" "250" "50" "100"⟩,
               ⟨"13".toList, exampleFiles "(b)" "R" "1" "2" "200"⟩,
               ⟨"14".toList, exampleFiles "(c)" "S" "1" "2" "200"⟩,
               ⟨"15".toList, exampleFiles "(d)" "X" "1" "2" "200"⟩])).val?.map
          (fun r => r.2.head?.map (fun rec => rec.values))
      = some (some [1, 2, 0, 0, 0, 0]) :=
  (congrArg (fun o => (Outcome.val? o).map (fun r => r.2.head?.map (fun rec => rec.values)))
    (C5_global_counts examplePlatform exampleRegistry
      [⟨"12".toList, exampleFiles "(a)" "S" "250" "50" "100"⟩,
       ⟨"13".toList, exampleFiles "(b)" "R" "1" "2" "200"⟩,
       ⟨"14".toList, exampleFiles "(c)" "S" "1" "2" "200"⟩,
       ⟨"15".toList, exampleFiles "(d)" "X" "1" "2" "200"⟩]
      (by decide) (by decide)).1).trans (by decide)

/-! ### Per-name aggregation -/

theorem foldl_accumulate_name (pf : Platform) (T : List procstat) (p : procstat) :
    (T.foldl (procstat_accumulate pf) p).name = p.name := by
  induction T generalizing p with
  | nil => rfl
  | cons e rest ih => rw [List.foldl_cons, ih]; rfl

theorem strcmp_eq_name (pf : Platform) (p e : procstat) (h : strcmp_eq pf p e = true) :
    p.name = e.name := by
  unfold strcmp_eq at h
  split at h
  · exact of_decide_eq_true h
  · split at h
    · assumption
    · exact absurd h (by simp)

theorem strcmp_eq_short_left (pf : Platform) (p e : procstat)
    (h : p.name.length < PROCSTAT_NAME_LEN) : strcmp_eq pf p e = decide (p.name = e.name) := by
  unfold strcmp_eq
  rw [if_pos (Or.inl h)]

theorem strcmp_eq_short_right (pf : Platform) (p e : procstat)
    (h : e.name.length < PROCSTAT_NAME_LEN) : strcmp_eq pf p e = decide (p.name = e.name) := by
  unfold strcmp_eq
  rw [if_pos (Or.inr h)]

theorem ps_list_add_names (pf : Platform) (l : List procstat) (s : procstat) :
    (ps_list_add pf l s).map procstat.name = l.map procstat.name := by
  induction l with
  | nil => rfl
  | cons r rest ih =>
    unfold ps_list_add
    split
    · rfl
    · simp only [List.map_cons, ih]

theorem ps_list_add_length (pf : Platform) (l : List procstat) (s : procstat) :
    (ps_list_add pf l s).length = l.length := by
  have h := congrArg List.length (ps_list_add_names pf l s)
  simpa using h

theorem ps_list_add_fold_length (pf : Platform) (S : List procstat) (l : List procstat) :
    (S.foldl (ps_list_add pf) l).length = l.length := by
  induction S generalizing l with
  | nil => rfl
  | cons s rest ih => rw [List.foldl_cons, ih, ps_list_add_length]

theorem ps_list_add_get (pf : Platform) (l : List procstat) (s : procstat) (i : Nat)
    (q : procstat) (hq : l.get? i = some q) (hshort : q.name.length < PROCSTAT_NAME_LEN) :
    (ps_list_add pf l s).get? i
      = some (if s.name = q.name ∧ q.name ∉ (l.take i).map procstat.name then
                procstat_accumulate pf q s
              else q) := by
  induction l generalizing i with
  | nil => simp at hq
  | cons r rest ih =>
    by_cases hm : strcmp_eq pf r s = true
    · have hrs : r.name = s.name := strcmp_eq_name pf r s hm
      simp only [ps_list_add, hm, if_true]
      cases i with
      | zero =>
        simp only [List.get?, Option.some.injEq] at hq
        subst hq
        simp [hrs]
      | succ k =>
        simp only [List.get?] at hq ⊢
        rw [hq, if_neg]
        rintro ⟨h1, h2⟩
        apply h2
        simp only [List.take_succ_cons, List.map_cons, List.mem_cons]
        exact Or.inl (h1.symm.trans hrs.symm)
    · simp only [ps_list_add, hm, if_false, Bool.false_eq_true]
      cases i with
      | zero =>
        simp only [List.get?, Option.some.injEq] at hq
        subst hq
        have hc : ¬ (s.name = r.name ∧ r.name ∉ (List.take 0 (r :: rest)).map procstat.name) := by
          rintro ⟨h1, _⟩
          apply hm
          rw [strcmp_eq_short_left pf r s hshort]
          exact decide_eq_true h1.symm
        rw [if_neg hc]
        rfl
      | succ k =>
        simp only [List.get?] at hq ⊢
        rw [ih k hq]
        by_cases hsq : s.name = q.name
        · have hqr : ¬ q.name = r.name := by
            intro hqr
            apply hm
            rw [strcmp_eq_short_right pf r s (by rw [hsq]; exact hshort)]
            exact decide_eq_true (hqr.symm.trans hsq.symm)
          simp [hsq, hqr]
        · simp [hsq]

theorem ps_list_add_fold_get (pf : Platform) (S l : List procstat) (i : Nat) (q : procstat)
    (hq : l.get? i = some q) (hshort : q.name.length < PROCSTAT_NAME_LEN) :
    (S.foldl (ps_list_add pf) l).get? i
      = some (if q.name ∈ (l.take i).map procstat.name then q
              else (S.filter (fun e => decide (e.name = q.name))).foldl
                     (procstat_accumulate pf) q) := by
  induction S generalizing l q with
  | nil =>
    simp only [List.foldl_nil, List.filter_nil, ite_self]
    exact hq
  | cons s rest ih =>
    rw [List.foldl_cons]
    have hstep := ps_list_add_get pf l s i q hq hshort
    have hnames : ((ps_list_add pf l s).take i).map procstat.name
        = (l.take i).map procstat.name := by
      rw [List.map_take, ps_list_add_names, ← List.map_take]
    by_cases hmem : q.name ∈ (l.take i).map procstat.name
    · rw [if_neg (fun h => h.2 hmem)] at hstep
      rw [ih (ps_list_add pf l s) q hstep hshort, hnames, if_pos hmem, if_pos hmem]
    · by_cases hsq : s.name = q.name
      · rw [if_pos ⟨hsq, hmem⟩] at hstep
        have hname : (procstat_accumulate pf q s).name = q.name := rfl
        rw [ih (ps_list_add pf l s) (procstat_accumulate pf q s) hstep (by rw [hname]; exact hshort),
          hnames, hname, if_neg hmem, if_neg hmem]
        simp only [List.filter_cons, hsq, decide_True, if_true, List.foldl_cons]
      · rw [if_neg (fun h => hsq h.1)] at hstep
        rw [ih (ps_list_add pf l s) q hstep hshort, hnames, if_neg hmem, if_neg hmem]
        simp only [List.filter_cons, hsq, decide_False, Bool.false_eq_true, if_false]

theorem foldl_accumulate_num_proc (pf : Platform) (T : List procstat) (p : procstat)
    (hp : p.num_proc < 2 ^ 32) (hT : ∀ e ∈ T, e.num_proc = 1) :
    (T.foldl (procstat_accumulate pf) p).num_proc = (p.num_proc + T.length) % 2 ^ 32 := by
  induction T generalizing p with
  | nil => simp only [List.foldl_nil, List.length_nil, Nat.add_zero]; omega
  | cons e rest ih =>
    have he : e.num_proc = 1 := hT e (List.mem_cons_self _ _)
    have hacc : (procstat_accumulate pf p e).num_proc = (p.num_proc + 1) % 2 ^ 32 := by
      simp [procstat_accumulate, he]
    rw [List.foldl_cons, ih _ (by rw [hacc]; exact Nat.mod_lt _ (by norm_num))
      (fun x hx => hT x (List.mem_cons_of_mem _ hx)), hacc]
    simp only [List.length_cons]
    omega

theorem foldl_accumulate_vmem_rss (pf : Platform) (T : List procstat) (p : procstat)
    (hp : p.vmem_rss < 2 ^ pf.long_bits) :
    (T.foldl (procstat_accumulate pf) p).vmem_rss
      = (p.vmem_rss + (T.map procstat.vmem_rss).sum) % 2 ^ pf.long_bits := by
  induction T generalizing p with
  | nil => simp [Nat.mod_eq_of_lt hp]
  | cons e rest ih =>
    have hacc : (procstat_accumulate pf p e).vmem_rss
        = (p.vmem_rss + e.vmem_rss) % 2 ^ pf.long_bits := rfl
    rw [List.foldl_cons, ih _ (by rw [hacc]; exact Nat.mod_lt _ (by positivity)), hacc]
    simp only [List.map_cons, List.sum_cons]
    rw [Nat.mod_add_mod, Nat.add_assoc]

theorem ps_list_reset_eq_map (l : List procstat) : ps_list_reset l = l.map procstat_reset := by
  induction l with
  | nil => rfl
  | cons p t ih => simp [ps_list_reset, ih]

/-! ### What a successful `ps_read_process` stores -/

theorem ps_read_process_some (pf : Platform) (files : ProcFiles) (ps : procstat) (st : Char)
    (h : ps_read_process pf files = Outcome.returns (some (ps, st))) :
    ∃ fields, files.stat_fields = some fields ∧ 24 ≤ fields.length ∧
      ps.num_proc = 1 ∧
      ps.vmem_rss = toU pf.long_bits (atol pf (fields.getD 23 []))
                      * toU pf.long_bits pf.pagesize_g % 2 ^ pf.long_bits ∧
      ps.cpu_user = toU 64 (atoll (fields.getD 13 [])) * 1000000 % 2 ^ 64 / CONFIG_HZ pf ∧
      ps.cpu_system = toU 64 (atoll (fields.getD 14 [])) * 1000000 % 2 ^ 64 / CONFIG_HZ pf ∧
      st = (fields.getD 2 []).headD '\x00' := by
  unfold ps_read_process at h
  cases hf : files.stat_fields with
  | none => simp [hf] at h
  | some fields =>
    refine ⟨fields, rfl, ?_⟩
    simp only [hf] at h
    split at h
    · exact absurd h (by simp)
    · rename_i hlen
      split at h
      · exact absurd h (by simp)
      · cases ht : ps_read_tasks files with
        | killed => simp [ht] at h
        | returns o =>
          cases o with
          | none => simp [ht] at h
          | some tasks =>
            simp only [ht, one_ne_zero, if_false, Outcome.returns.injEq, Option.some.injEq,
              Prod.mk.injEq] at h
            obtain ⟨h1, h2⟩ := h
            subst h1
            subst h2
            exact ⟨by omega, rfl, rfl, rfl, rfl, rfl⟩

theorem ps_read_sample_some (pf : Platform) (ent : ProcDirent) (s : procstat × Char)
    (h : ps_read_sample pf ent = Outcome.returns (some s)) :
    ps_read_process pf ent.files = Outcome.returns (some s) := by
  unfold ps_read_sample at h
  split at h
  · exact absurd h (by simp)
  · split at h
    · exact absurd h (by simp)
    · exact h

theorem ps_read_sample?_some (pf : Platform) (ent : ProcDirent) (s : procstat × Char)
    (h : ps_read_sample? pf ent = some s) :
    ps_read_sample pf ent = Outcome.returns (some s) := by
  unfold ps_read_sample? at h
  split at h
  · rename_i s1 hs1
    rw [hs1, Option.some.inj h]
  · exact absurd h (by simp)

theorem ps_read_samples_num_proc (pf : Platform) (ents : List ProcDirent)
    (s : procstat × Char) (h : s ∈ ps_read_samples pf ents) : s.1.num_proc = 1 := by
  unfold ps_read_samples at h
  rw [List.mem_filterMap] at h
  obtain ⟨ent, _, hs⟩ := h
  obtain ⟨_, _, _, h1, _⟩ := ps_read_process_some pf ent.files s.1 s.2
    (ps_read_sample_some pf ent s (ps_read_sample?_some pf ent s hs))
  exact h1

theorem ps_read_linux_list (pf : Platform) (list_head_g : List procstat)
    (ents : List ProcDirent) (hnk : ∀ e ∈ ents, ps_read_sample pf e ≠ Outcome.killed) :
    (ps_read_linux pf list_head_g (some ents)).val?.map Prod.fst
      = some (((ps_read_samples pf ents).map Prod.fst).foldl (ps_list_add pf)
                (list_head_g.map procstat_reset)) := by
  unfold ps_read_linux
  simp only [ps_read_loop_eq pf ents _ hnk, ps_list_reset_eq_map, Outcome.val?, Option.map_some']

theorem ps_read_linux_get_of (pf : Platform) (list_head_g : List procstat)
    (ents : List ProcDirent) (i : Nat) (q : procstat)
    (hnk : ∀ e ∈ ents, ps_read_sample pf e ≠ Outcome.killed)
    (hq : list_head_g.get? i = some q) (hshort : q.name.length < PROCSTAT_NAME_LEN) :
    (ps_read_linux pf list_head_g (some ents)).val?.map (fun r => r.1.get? i)
      = some (some (if q.name ∈ (list_head_g.take i).map procstat.name then procstat_reset q
              else (((ps_read_samples pf ents).map Prod.fst).filter
                     (fun e => decide (e.name = q.name))).foldl
                       (procstat_accumulate pf) (procstat_reset q))) := by
  have hl := ps_read_linux_list pf list_head_g ents hnk
  have hr : (list_head_g.map procstat_reset).get? i = some (procstat_reset q) := by
    rw [List.get?_eq_getElem?] at hq ⊢
    rw [List.getElem?_map, hq]
    rfl
  have hname : (procstat_reset q).name = q.name := rfl
  have hg := ps_list_add_fold_get pf ((ps_read_samples pf ents).map Prod.fst)
    (list_head_g.map procstat_reset) i (procstat_reset q) hr (by rw [hname]; exact hshort)
  have hnames : ((list_head_g.map procstat_reset).take i).map procstat.name
      = (list_head_g.take i).map procstat.name := by
    rw [← List.map_take, List.map_map]
    rfl
  rw [hnames, hname] at hg
  cases hv : (ps_read_linux pf list_head_g (some ents)).val? with
  | none => rw [hv] at hl; exact absurd hl (by simp)
  | some r =>
    rw [hv] at hl
    simp only [Option.map_some', Option.some.injEq] at hl ⊢
    rw [hl, hg]

/-- C2 (counterexample): with `CollectName a` given twice the list holds two entries
named `a`; after a cycle with one sample named `a` the second entry has `num_proc` 0
although one sample carries its name. -/
theorem C2_duplicate_entry_not_counted :
    (ps_read_linux examplePlatform exampleRegistryTwice
        (some [⟨"12".toList, exampleFiles "(a)" "S" "250" "50" "100"⟩])).val?.map Prod.fst
      = some [⟨"a".toList, 1, 2, 409600, 7, 3, 2500000, 500000⟩,
              ⟨"a".toList, 0, 0, 0, 0, 0, 0, 0⟩] ∧
    ¬ (∀ p ∈ [(⟨"a".toList, 1, 2, 409600, 7, 3, 2500000, 500000⟩ : procstat),
              ⟨"a".toList, 0, 0, 0, 0, 0, 0, 0⟩],
        p.num_proc
          = (samples_named
              (ps_read_samples examplePlatform
                [⟨"12".toList, exampleFiles "(a)" "S" "250" "50" "100"⟩]) p.name).length) := by
  decide

/-- C2 (amended): a Linux cycle that is not cut short (no process dies between the
`opendir` and the first `readdir` of its task directory, which would kill the
collector in an assertion) returns with every tracked entry at its position and with
its name. For an entry whose name is shorter than 256 characters (so that its buffer
ends in a NUL) and that is the first in the list with its name, `num_proc` equals the
number of the cycle's samples whose name equals the entry's name, reduced modulo 2^32
(the width of `unsigned int`); such an entry that an earlier entry shares the name
with stays at 0. -/
theorem C2_num_proc_counts_samples (pf : Platform) (list_head_g : List procstat)
    (ents : List ProcDirent) (i : Nat) (q : procstat)
    (hnk : ∀ e ∈ ents, ps_read_sample pf e ≠ Outcome.killed)
    (hq : list_head_g.get? i = some q) (hshort : q.name.length < PROCSTAT_NAME_LEN) :
    (ps_read_linux pf list_head_g (some ents)).val?.map
        (fun r => (r.1.get? i).map procstat.name) = some (some q.name) ∧
    (ps_read_linux pf list_head_g (some ents)).val?.map
        (fun r => (r.1.get? i).map procstat.num_proc)
      = some (some (if q.name ∈ (list_head_g.take i).map procstat.name then 0
              else (samples_named (ps_read_samples pf ents) q.name).length % 2 ^ 32)) := by
  have hg := ps_read_linux_get_of pf list_head_g ents i q hnk hq hshort
  cases hv : (ps_read_linux pf list_head_g (some ents)).val? with
  | none => rw [hv] at hg; exact absurd hg (by simp)
  | some r =>
    rw [hv] at hg
    simp only [Option.map_some', Option.some.injEq] at hg ⊢
    rw [hg]
    by_cases hmem : q.name ∈ (list_head_g.take i).map procstat.name
    · simp only [if_pos hmem, Option.map_some']
      exact ⟨rfl, rfl⟩
    · simp only [if_neg hmem, Option.map_some', Option.some.injEq]
      refine ⟨foldl_accumulate_name pf _ _, ?_⟩
      rw [foldl_accumulate_num_proc pf _ _ (by simp [procstat_reset])]
      · have hlen : (((ps_read_samples pf ents).map Prod.fst).filter
            (fun e => decide (e.name = q.name))).length
            = (samples_named (ps_read_samples pf ents) q.name).length := by
          unfold samples_named
          rw [List.filter_map, List.length_map]
          rfl
        rw [hlen]
        simp [procstat_reset]
      · intro e he
        rw [List.mem_filter, List.mem_map] at he
        obtain ⟨⟨s, hs, rfl⟩, _⟩ := he
        exact ps_read_samples_num_proc pf ents s hs

/-- C2 (witness): two of three samples are named `a`; the first entry counts 2. -/
theorem C2_num_proc_counts_samples_witness :
    (ps_read_linux examplePlatform exampleRegistry
        (some [⟨"12".toList, exampleFiles "(a)" "S" "250" "50" "100"⟩,
               ⟨"13".toList, exampleFiles "(b)" "R" "1" "2" "200"⟩,
               ⟨"14".toList, exampleFiles "(a)" "X" "1" "2" "200"⟩])).val?.map
        (fun r => (r.1.get? 0).map procstat.num_proc)
      = some (some 2) :=
  (C2_num_proc_counts_samples examplePlatform exampleRegistry
    [⟨"12".toList, exampleFiles "(a)" "S" "250" "50" "100"⟩,
     ⟨"13".toList, exampleFiles "(b)" "R" "1" "2" "200"⟩,
     ⟨"14".toList, exampleFiles "(a)" "X" "1" "2" "200"⟩] 0
    ⟨"a".toList, 0, 0, 0, 0, 0, 0, 0⟩ (by decide) (by decide) (by decide)).2.trans (by decide)

/-! ### Resident memory -/

theorem ps_read_sample_vmem_rss (pf : Platform) (ent : ProcDirent) (s : procstat × Char)
    (h : ps_read_sample? pf ent = some s) :
    s.1.vmem_rss = toU pf.long_bits (rss_pages pf ent) * toU pf.long_bits pf.pagesize_g
                     % 2 ^ pf.long_bits := by
  obtain ⟨fields, hf, _, _, hv, _⟩ := ps_read_process_some pf ent.files s.1 s.2
    (ps_read_sample_some pf ent s (ps_read_sample?_some pf ent s h))
  rw [hv]
  unfold rss_pages
  rw [hf]
  rfl

theorem samples_named_vmem_rss (pf : Platform) (ents : List ProcDirent) (name : List Char) :
    ((((ps_read_samples pf ents).map Prod.fst).filter
        (fun e => decide (e.name = name))).map procstat.vmem_rss)
      = (entries_named pf ents name).map
          (fun e => toU pf.long_bits (rss_pages pf e) * toU pf.long_bits pf.pagesize_g
                      % 2 ^ pf.long_bits) := by
  induction ents with
  | nil => rfl
  | cons e rest ih =>
    unfold ps_read_samples entries_named at ih ⊢
    cases hs : ps_read_sample? pf e with
    | none => simp only [List.filterMap_cons, hs, List.filter_cons, Bool.false_eq_true, if_false, ih]
    | some s =>
      have hv := ps_read_sample_vmem_rss pf e s hs
      by_cases hn : s.1.name = name
      · simp only [List.filterMap_cons, hs, List.map_cons, List.filter_cons, hn, decide_True,
          if_true, ih, hv]
      · simp only [List.filterMap_cons, hs, List.map_cons, List.filter_cons, hn, decide_False,
          Bool.false_eq_true, if_false, ih]

theorem toU_of_range (w : Nat) (x : Int) (h0 : 0 ≤ x) (h1 : x < 2 ^ w) :
    ((toU w x : Nat) : Int) = x := by
  unfold toU
  rw [Int.emod_eq_of_lt h0 h1]
  exact Int.toNat_of_nonneg h0

theorem rss_sum_in_range (w : Nat) (g : Int) (xs : List Int) (hg0 : 0 ≤ g) (hg : g < 2 ^ w)
    (hx : ∀ x ∈ xs, 0 ≤ x ∧ x < 2 ^ w) (hsum : g * xs.sum < 2 ^ w) :
    (((xs.map (fun x => toU w x * toU w g % 2 ^ w)).sum : Nat) : Int) = g * xs.sum := by
  induction xs with
  | nil => simp
  | cons x rest ih =>
    have hx0 := (hx x (List.mem_cons_self _ _)).1
    have hx1 := (hx x (List.mem_cons_self _ _)).2
    have hrest : ∀ y ∈ rest, 0 ≤ y ∧ y < 2 ^ w := fun y hy => hx y (List.mem_cons_of_mem _ hy)
    have hsum0 : 0 ≤ rest.sum := List.sum_nonneg (fun y hy => (hrest y hy).1)
    rw [List.sum_cons, mul_add] at hsum
    have hgx : 0 ≤ g * x := mul_nonneg hg0 hx0
    have hgs : 0 ≤ g * rest.sum := mul_nonneg hg0 hsum0
    have ih1 := ih hrest (by linarith)
    have hterm : ((toU w x * toU w g % 2 ^ w : Nat) : Int) = g * x := by
      have hprod : ((toU w x * toU w g : Nat) : Int) = g * x := by
        rw [Nat.cast_mul, toU_of_range w x hx0 hx1, toU_of_range w g hg0 hg, mul_comm]
      have hlt : toU w x * toU w g < 2 ^ w := by
        have : ((toU w x * toU w g : Nat) : Int) < ((2 ^ w : Nat) : Int) := by
          rw [hprod]; push_cast; linarith
        exact_mod_cast this
      rw [Nat.mod_eq_of_lt hlt, hprod]
    simp only [List.map_cons, List.sum_cons, Nat.cast_add]
    rw [hterm, ih1, mul_add]

theorem wrapS_lt (w : Nat) (x : Int) : wrapS w x < 2 ^ w := by
  unfold wrapS
  have hm : (0 : Int) < 2 ^ w := by positivity
  have hh : (0 : Int) ≤ 2 ^ (w - 1) := by positivity
  have := Int.emod_lt_of_pos (x + 2 ^ (w - 1)) hm
  linarith

/-- C10 (counterexample): with `CollectName a` given twice, after a cycle with two
samples named `a` of 100 and 200 resident pages the second entry named `a` has
`vmem_rss` 0, not 1228800; and on a host with a 32-bit `unsigned long`, two samples
named `a` of 524288 resident pages each add up to 0, not to 4096 * 1048576. -/
theorem C10_vmem_rss_not_always_the_product :
    ((ps_read_linux examplePlatform exampleRegistryTwice
        (some [⟨"12".toList, exampleFiles "(a)" "S" "250" "50" "100"⟩,
               ⟨"13".toList, exampleFiles "(a)" "R" "1" "2" "200"⟩])).val?.map Prod.fst
      = some [⟨"a".toList, 2, 4, 1228800, 14, 6, 2510000, 520000⟩,
              ⟨"a".toList, 0, 0, 0, 0, 0, 0, 0⟩] ∧
     ¬ (∀ p ∈ [(⟨"a".toList, 2, 4, 1228800, 14, 6, 2510000, 520000⟩ : procstat),
               ⟨"a".toList, 0, 0, 0, 0, 0, 0, 0⟩],
         (p.vmem_rss : Int)
           = examplePlatform.pagesize_g
             * ((entries_named examplePlatform
                   [⟨"12".toList, exampleFiles "(a)" "S" "250" "50" "100"⟩,
                    ⟨"13".toList, exampleFiles "(a)" "R" "1" "2" "200"⟩] p.name).map
                 (rss_pages examplePlatform)).sum)) ∧
    ((ps_read_linux examplePlatform32 exampleRegistry
        (some [⟨"12".toList, exampleFiles "(a)" "S" "250" "50" "524288"⟩,
               ⟨"13".toList, exampleFiles "(a)" "R" "1" "2" "524288"⟩])).val?.map Prod.fst
      = some [⟨"a".toList, 2, 4, 0, 14, 6, 2510000, 520000⟩,
              ⟨"b".toList, 0, 0, 0, 0, 0, 0, 0⟩] ∧
     ¬ (∀ p ∈ [(⟨"a".toList, 2, 4, 0, 14, 6, 2510000, 520000⟩ : procstat),
               ⟨"b".toList, 0, 0, 0, 0, 0, 0, 0⟩],
         (p.vmem_rss : Int)
           = examplePlatform32.pagesize_g
             * ((entries_named examplePlatform32
                   [⟨"12".toList, exampleFiles "(a)" "S" "250" "50" "524288"⟩,
                    ⟨"13".toList, exampleFiles "(a)" "R" "1" "2" "524288"⟩] p.name).map
                 (rss_pages examplePlatform32)).sum)) := by
  decide

/-- C10 (amended): a Linux cycle that is not cut short (no process dies between the
`opendir` and the first `readdir` of its task directory, which would kill the
collector in an assertion) returns with every tracked entry at its position and with
its name. For an entry whose name is shorter than 256 characters and that is the
first in the list with its name, `vmem_rss` is the sum, in `unsigned long` arithmetic
(modulo 2^long_bits), of `pages * pagesize_g` over the samples whose name equals the
entry's name; such an entry that an earlier entry shares the name with stays at 0.
When the page size and the resident-page counts are not negative and the page size
times the sum of the counts is below 2^long_bits, the first entry's `vmem_rss` is
exactly the page size times the sum of the resident-page counts (status field 23) of
the matching samples. -/
theorem C10_vmem_rss_sums_pages (pf : Platform) (list_head_g : List procstat)
    (ents : List ProcDirent) (i : Nat) (q : procstat)
    (hnk : ∀ e ∈ ents, ps_read_sample pf e ≠ Outcome.killed)
    (hq : list_head_g.get? i = some q) (hshort : q.name.length < PROCSTAT_NAME_LEN) :
    (ps_read_linux pf list_head_g (some ents)).val?.map
        (fun r => (r.1.get? i).map procstat.name) = some (some q.name) ∧
    (ps_read_linux pf list_head_g (some ents)).val?.map
        (fun r => (r.1.get? i).map procstat.vmem_rss)
      = some (some (if q.name ∈ (list_head_g.take i).map procstat.name then 0
              else ((entries_named pf ents q.name).map
                     (fun e => toU pf.long_bits (rss_pages pf e)
                                 * toU pf.long_bits pf.pagesize_g % 2 ^ pf.long_bits)).sum
                   % 2 ^ pf.long_bits)) ∧
    (q.name ∉ (list_head_g.take i).map procstat.name →
      0 ≤ pf.pagesize_g → pf.pagesize_g < 2 ^ pf.long_bits →
      (∀ e ∈ entries_named pf ents q.name, 0 ≤ rss_pages pf e) →
      pf.pagesize_g * ((entries_named pf ents q.name).map (rss_pages pf)).sum
        < 2 ^ pf.long_bits →
      (ps_read_linux pf list_head_g (some ents)).val?.map
          (fun r => (r.1.get? i).map (fun p => (p.vmem_rss : Int)))
        = some (some
            (pf.pagesize_g * ((entries_named pf ents q.name).map (rss_pages pf)).sum))) := by
  have hg := ps_read_linux_get_of pf list_head_g ents i q hnk hq hshort
  have hval : (if q.name ∈ (list_head_g.take i).map procstat.name then procstat_reset q
      else (((ps_read_samples pf ents).map Prod.fst).filter
             (fun e => decide (e.name = q.name))).foldl
               (procstat_accumulate pf) (procstat_reset q)).vmem_rss
      = (if q.name ∈ (list_head_g.take i).map procstat.name then 0
         else ((entries_named pf ents q.name).map
                (fun e => toU pf.long_bits (rss_pages pf e) * toU pf.long_bits pf.pagesize_g
                            % 2 ^ pf.long_bits)).sum % 2 ^ pf.long_bits) := by
    by_cases hmem : q.name ∈ (list_head_g.take i).map procstat.name
    · rw [if_pos hmem, if_pos hmem]; rfl
    · rw [if_neg hmem, if_neg hmem,
        foldl_accumulate_vmem_rss pf _ _ (by simp [procstat_reset]), samples_named_vmem_rss]
      simp [procstat_reset]
  cases hv : (ps_read_linux pf list_head_g (some ents)).val? with
  | none => rw [hv] at hg; exact absurd hg (by simp)
  | some r =>
    rw [hv] at hg
    simp only [Option.map_some', Option.some.injEq] at hg ⊢
    rw [hg]
    refine ⟨?_, ?_, ?_⟩
    · simp only [Option.map_some', Option.some.injEq]
      split
      · rfl
      · exact foldl_accumulate_name pf _ _
    · simp only [Option.map_some', hval]
    · intro hfirst hg0 hgl hpages hsum
      have hx : ∀ x ∈ (entries_named pf ents q.name).map (rss_pages pf),
          0 ≤ x ∧ x < 2 ^ pf.long_bits := by
        intro x hx
        rw [List.mem_map] at hx
        obtain ⟨e, he, rfl⟩ := hx
        exact ⟨hpages e he, wrapS_lt _ _⟩
      have hs := rss_sum_in_range pf.long_bits pf.pagesize_g _ hg0 hgl hx hsum
      rw [List.map_map] at hs
      have hfun : (fun e => toU pf.long_bits (rss_pages pf e) * toU pf.long_bits pf.pagesize_g
                    % 2 ^ pf.long_bits)
              = ((fun x => toU pf.long_bits x * toU pf.long_bits pf.pagesize_g
                    % 2 ^ pf.long_bits) ∘ rss_pages pf) := rfl
      have hlt : ((entries_named pf ents q.name).map
          (fun e => toU pf.long_bits (rss_pages pf e) * toU pf.long_bits pf.pagesize_g
                      % 2 ^ pf.long_bits)).sum < 2 ^ pf.long_bits := by
        have : ((((entries_named pf ents q.name).map
          (fun e => toU pf.long_bits (rss_pages pf e) * toU pf.long_bits pf.pagesize_g
                      % 2 ^ pf.long_bits)).sum : Nat) : Int)
            < ((2 ^ pf.long_bits : Nat) : Int) := by
          rw [hfun, hs]
          push_cast
          exact hsum
        exact_mod_cast this
      simp only [Option.map_some', Option.some.injEq, hval]
      rw [if_neg hfirst, Nat.mod_eq_of_lt hlt, hfun]
      exact hs

/-- C10 (witness): page size 4096, matched processes of 100 and 200 pages: 1228800 bytes. -/
theorem C10_vmem_rss_sums_pages_witness :
    (ps_read_linux examplePlatform exampleRegistry
        (some [⟨"12".toList, exampleFiles "(a)" "S" "250" "50" "100"⟩,
               ⟨"13".toList, exampleFiles "(b)" "R" "1" "2" "700"⟩,
               ⟨"14".toList, exampleFiles "(a)" "X" "1" "2" "200"⟩])).val?.map
          (fun r => (r.1.get? 0).map (fun p => (p.vmem_rss : Int)))
      = some (some 1228800) :=
  ((C10_vmem_rss_sums_pages examplePlatform exampleRegistry
    [⟨"12".toList, exampleFiles "(a)" "S" "250" "50" "100"⟩,
     ⟨"13".toList, exampleFiles "(b)" "R" "1" "2" "700"⟩,
     ⟨"14".toList, exampleFiles "(a)" "X" "1" "2" "200"⟩] 0
    ⟨"a".toList, 0, 0, 0, 0, 0, 0, 0⟩ (by decide) (by decide) (by decide)).2.2
      (by decide) (by decide) (by decide) (by decide) (by decide)).trans (by decide)

/-! ### CPU time -/

/-- C6 (counterexample): with clock rate 100, a user-mode tick count of 18446744073710
in field 13 makes `ps_read_process` store `cpu_user` 4483, not
18446744073710 * 1000000 / 100: the product does not fit 64 bits. -/
theorem C6_cpu_ticks_product_wraps :
    CONFIG_HZ examplePlatform = 100 ∧
    atoll ((exampleStat "(a)" "S" "18446744073710" "50" "100").getD 13 []) = 18446744073710 ∧
    ps_read_process examplePlatform (exampleFiles "(a)" "S" "18446744073710" "50" "100")
      = Outcome.returns (some (⟨"a".toList, 1, 2, 409600, 7, 3, 4483, 500000⟩, 'S')) ∧
    ¬ (((4483 : Nat) : Int)
        = atoll ((exampleStat "(a)" "S" "18446744073710" "50" "100").getD 13 [])
            * 1000000 / (CONFIG_HZ examplePlatform : Int)) := by
  decide

/-- C6 (amended): a successful `ps_read_process` sets `cpu_user` and `cpu_system` to
`(ticks * 1000000 mod 2^64) / CONFIG_HZ` for the tick counts read from fields 13 and
14 (unsigned 64-bit arithmetic, integer division), which is
`ticks * 1000000 / CONFIG_HZ` whenever the tick count is not negative and
`ticks * 1000000` is below 2^64; `CONFIG_HZ` is 100 when the kernel headers do not
provide it. -/
theorem C6_cpu_ticks_to_microseconds (pf : Platform) (files : ProcFiles)
    (fields : List (List Char)) (ps : procstat) (st : Char)
    (hf : files.stat_fields = some fields)
    (h : ps_read_process pf files = Outcome.returns (some (ps, st))) :
    ps.cpu_user = toU 64 (atoll (fields.getD 13 [])) * 1000000 % 2 ^ 64 / CONFIG_HZ pf ∧
    ps.cpu_system = toU 64 (atoll (fields.getD 14 [])) * 1000000 % 2 ^ 64 / CONFIG_HZ pf ∧
    (0 ≤ atoll (fields.getD 13 []) → atoll (fields.getD 13 []) * 1000000 < 2 ^ 64 →
      (ps.cpu_user : Int) = atoll (fields.getD 13 []) * 1000000 / (CONFIG_HZ pf : Int)) ∧
    (0 ≤ atoll (fields.getD 14 []) → atoll (fields.getD 14 []) * 1000000 < 2 ^ 64 →
      (ps.cpu_system : Int) = atoll (fields.getD 14 []) * 1000000 / (CONFIG_HZ pf : Int)) ∧
    (pf.linux_config_hz = none → CONFIG_HZ pf = 100) := by
  obtain ⟨fields1, hf1, _, _, _, hu, hs, _⟩ := ps_read_process_some pf files ps st h
  have hfe : fields1 = fields := Option.some.inj (hf1.symm.trans hf)
  subst hfe
  have key : ∀ t : Int, 0 ≤ t → t * 1000000 < 2 ^ 64 →
      ((toU 64 t * 1000000 % 2 ^ 64 / CONFIG_HZ pf : Nat) : Int)
        = t * 1000000 / (CONFIG_HZ pf : Int) := by
    intro t ht0 ht1
    have ht64 : t < 2 ^ 64 := by omega
    have hcast : ((toU 64 t : Nat) : Int) = t := toU_of_range 64 t ht0 ht64
    have hlt : toU 64 t * 1000000 < 2 ^ 64 := by
      have : ((toU 64 t * 1000000 : Nat) : Int) < 2 ^ 64 := by
        rw [Nat.cast_mul, hcast]; exact_mod_cast ht1
      exact_mod_cast this
    rw [Nat.mod_eq_of_lt hlt, Int.natCast_ediv, Nat.cast_mul, hcast]
    rfl
  refine ⟨hu, hs, ?_, ?_, ?_⟩
  · intro h0 h1
    rw [hu]
    exact key _ h0 h1
  · intro h0 h1
    rw [hs]
    exact key _ h0 h1
  · intro hn
    unfold CONFIG_HZ
    rw [hn]
    rfl

/-- C6 (witness): clock rate 100, 250 user and 50 system ticks give 2500000 and 500000. -/
theorem C6_cpu_ticks_to_microseconds_witness :
    ((2500000 : Nat) : Int)
        = atoll ((exampleStat "(a)" "S" "250" "50" "100").getD 13 []) * 1000000
            / (CONFIG_HZ examplePlatform : Int) ∧
    ((500000 : Nat) : Int)
        = atoll ((exampleStat "(a)" "S" "250" "50" "100").getD 14 []) * 1000000
            / (CONFIG_HZ examplePlatform : Int) ∧
    CONFIG_HZ examplePlatform = 100 ∧
    atoll ((exampleStat "(a)" "S" "250" "50" "100").getD 13 []) = 250 ∧
    atoll ((exampleStat "(a)" "S" "250" "50" "100").getD 14 []) = 50 :=
  ⟨(C6_cpu_ticks_to_microseconds examplePlatform (exampleFiles "(a)" "S" "250" "50" "100")
      (exampleStat "(a)" "S" "250" "50" "100")
      ⟨"a".toList, 1, 2, 409600, 7, 3, 2500000, 500000⟩ 'S' rfl (by decide)).2.2.1
      (by decide) (by decide),
   (C6_cpu_ticks_to_microseconds examplePlatform (exampleFiles "(a)" "S" "250" "50" "100")
      (exampleStat "(a)" "S" "250" "50" "100")
      ⟨"a".toList, 1, 2, 409600, 7, 3, 2500000, 500000⟩ 'S' rfl (by decide)).2.2.2.1
      (by decide) (by decide),
   by decide, by decide, by decide⟩

/-! ### The task list -/

theorem set_append_zeros (ids : List Int) (m : Nat) (v : Int) :
    (ids ++ List.replicate (m + 1) 0).set ids.length v = ids ++ v :: List.replicate m 0 := by
  induction ids with
  | nil => simp [List.replicate_succ]
  | cons x rest ih => simp [ih]

theorem ps_read_tasks_step_skip (realloc_ok : Nat → Bool) (st : TaskList) (d : List Char)
    (hd : isdigit (d.headD '\x00') = false) : ps_read_tasks_step realloc_ok st d = some st := by
  unfold ps_read_tasks_step
  simp only [hd, Bool.not_false, if_true]

theorem ps_read_tasks_step_digit (realloc_ok : Nat → Bool) (hre : ∀ n, realloc_ok n = true)
    (ids : List Int) (size : Nat) (d : List Char) (hlt : ids.length < size)
    (hd : isdigit (d.headD '\x00') = true) :
    ps_read_tasks_step realloc_ok (task_state ids size) d
      = some (task_state (if atoi d ≠ 0 then ids ++ [atoi d] else ids)
                (if ids.length + 1 ≥ size then 2 * size else size)) := by
  unfold ps_read_tasks_step task_state
  simp only [hd, Bool.not_true, Bool.false_eq_true, if_false, hre, if_true, Option.getD_some]
  by_cases hg : ids.length + 1 ≥ size
  · simp only [hg, if_true, List.take_left, Option.getD_some]
    obtain ⟨m, hm⟩ : ∃ m, 2 * size - ids.length = m + 1 := ⟨2 * size - ids.length - 1, by omega⟩
    rw [hm, set_append_zeros]
    by_cases hv : atoi d = 0
    · simp only [hv, ne_eq, not_true_eq_false, if_false, hm, List.replicate_succ]
    · simp only [hv, ne_eq, not_false_eq_true, if_true, List.length_append, List.length_singleton,
        List.append_assoc, List.singleton_append]
      rw [show 2 * size - (ids.length + 1) = m by omega]
  · simp only [hg, if_false, Option.getD_some]
    obtain ⟨m, hm⟩ : ∃ m, size - ids.length = m + 1 := ⟨size - ids.length - 1, by omega⟩
    rw [hm, set_append_zeros]
    by_cases hv : atoi d = 0
    · simp only [hv, ne_eq, not_true_eq_false, if_false, hm, List.replicate_succ]
    · simp only [hv, ne_eq, not_false_eq_true, if_true, List.length_append, List.length_singleton,
        List.append_assoc, List.singleton_append]
      rw [show size - (ids.length + 1) = m by omega]

theorem task_ids_cons (e : List Char) (rest : List (List Char)) :
    task_ids (e :: rest)
      = if isdigit (e.headD '\x00') = true then
          (if atoi e ≠ 0 then atoi e :: task_ids rest else task_ids rest)
        else task_ids rest := by
  unfold task_ids
  by_cases hd : isdigit (e.headD '\x00') = true
  · by_cases hv : atoi e = 0
    · simp only [List.filter_cons, hd, if_true, List.map_cons, hv, ne_eq, not_true_eq_false,
        decide_False, Bool.false_eq_true, if_false]
    · simp only [List.filter_cons, hd, if_true, List.map_cons, hv, ne_eq, not_false_eq_true,
        decide_True]
  · simp only [List.filter_cons, hd, Bool.false_eq_true, if_false]

theorem task_digit_count_cons (e : List Char) (rest : List (List Char)) :
    task_digit_count (e :: rest)
      = if isdigit (e.headD '\x00') = true then task_digit_count rest + 1
        else task_digit_count rest := by
  unfold task_digit_count
  by_cases hd : isdigit (e.headD '\x00') = true
  · simp only [List.filter_cons, hd, if_true, List.length_cons]
  · simp only [List.filter_cons, hd, Bool.false_eq_true, if_false]

theorem task_ids_ne_zero (ents : List (List Char)) : ∀ x ∈ task_ids ents, x ≠ 0 := by
  intro x hx
  unfold task_ids at hx
  rw [List.mem_filter] at hx
  simpa using hx.2

theorem task_ids_length_le (ents : List (List Char)) :
    (task_ids ents).length ≤ task_digit_count ents := by
  unfold task_ids task_digit_count
  exact (List.length_filter_le _ _).trans (by rw [List.length_map])

theorem ps_read_tasks_loop_good (realloc_ok : Nat → Bool) (hre : ∀ n, realloc_ok n = true)
    (ents : List (List Char)) (ids : List Int) (k d : Nat)
    (hlt : ids.length < 2 ^ k) (hd1 : ids.length ≤ d) (hb : 2 ^ k ≤ 2 * d) :
    ∃ k1, k ≤ k1 ∧ (ids ++ task_ids ents).length < 2 ^ k1 ∧
      2 ^ k1 ≤ 2 * (d + task_digit_count ents) ∧
      ps_read_tasks_loop realloc_ok (task_state ids (2 ^ k)) ents
        = some (task_state (ids ++ task_ids ents) (2 ^ k1)) := by
  induction ents generalizing ids k d with
  | nil =>
    refine ⟨k, le_refl _, ?_, ?_, ?_⟩
    · simpa [task_ids] using hlt
    · simpa [task_digit_count] using hb
    · simp [ps_read_tasks_loop, task_ids]
  | cons e rest ih =>
    by_cases hd : isdigit (e.headD '\x00') = true
    · have hstep := ps_read_tasks_step_digit realloc_ok hre ids (2 ^ k) e hlt hd
      have hpow : 2 ^ (k + 1) = 2 * 2 ^ k := by ring
      have hlen : (if atoi e ≠ 0 then ids ++ [atoi e] else ids).length ≤ ids.length + 1 := by
        split <;> simp
      have hk : ∃ k0, k ≤ k0 ∧ (if ids.length + 1 ≥ 2 ^ k then 2 * 2 ^ k else 2 ^ k) = 2 ^ k0 ∧
          (if atoi e ≠ 0 then ids ++ [atoi e] else ids).length < 2 ^ k0 ∧
          2 ^ k0 ≤ 2 * (d + 1) := by
        by_cases hg : ids.length + 1 ≥ 2 ^ k
        · exact ⟨k + 1, by omega, by rw [if_pos hg, hpow], by omega, by omega⟩
        · exact ⟨k, le_refl _, by rw [if_neg hg], by omega, by omega⟩
      obtain ⟨k0, hk0, hsize, hlt0, hb0⟩ := hk
      rw [hsize] at hstep
      obtain ⟨k1, hk1, hl1, hb1, hloop⟩ :=
        ih (if atoi e ≠ 0 then ids ++ [atoi e] else ids) k0 (d + 1) hlt0 (by omega) hb0
      have hids : (if atoi e ≠ 0 then ids ++ [atoi e] else ids) ++ task_ids rest
          = ids ++ task_ids (e :: rest) := by
        rw [task_ids_cons, if_pos hd]
        split <;> simp
      rw [hids] at hl1 hloop
      refine ⟨k1, ?_, hl1, ?_, ?_⟩
      · omega
      · rw [task_digit_count_cons, if_pos hd]
        have : d + 1 + task_digit_count rest = d + (task_digit_count rest + 1) := by omega
        rw [← this]
        exact hb1
      · rw [ps_read_tasks_loop, hstep]
        exact hloop
    · have hd0 : isdigit (e.headD '\x00') = false := by simpa using hd
      obtain ⟨k1, hk1, hl1, hb1, hloop⟩ := ih ids k d hlt hd1 hb
      refine ⟨k1, hk1, ?_, ?_, ?_⟩
      · rw [task_ids_cons, if_neg hd]; exact hl1
      · rw [task_digit_count_cons, if_neg hd]; exact hb1
      · rw [ps_read_tasks_loop, ps_read_tasks_step_skip realloc_ok _ e hd0, task_ids_cons,
          if_neg hd]
        exact hloop

theorem ps_read_tasks_step_first (realloc_ok : Nat → Bool) (hre : ∀ n, realloc_ok n = true)
    (d : List Char) (hd : isdigit (d.headD '\x00') = true) :
    ps_read_tasks_step realloc_ok { list := none, list_size := 1, list_len := 0 } d
      = some (task_state (if atoi d ≠ 0 then [atoi d] else []) (2 ^ 1)) := by
  unfold ps_read_tasks_step task_state
  simp only [hd, Bool.not_true, Bool.false_eq_true, if_false, hre, if_true]
  by_cases hv : atoi d = 0
  · simp [hv, List.replicate]
  · simp [hv, List.replicate]

theorem ps_read_tasks_loop_init (realloc_ok : Nat → Bool) (hre : ∀ n, realloc_ok n = true)
    (ents : List (List Char)) (hdig : 0 < task_digit_count ents) :
    ∃ k, 1 ≤ k ∧ (task_ids ents).length < 2 ^ k ∧ 2 ^ k ≤ 2 * task_digit_count ents ∧
      ps_read_tasks_loop realloc_ok { list := none, list_size := 1, list_len := 0 } ents
        = some (task_state (task_ids ents) (2 ^ k)) := by
  induction ents with
  | nil => simp [task_digit_count] at hdig
  | cons e rest ih =>
    by_cases hd : isdigit (e.headD '\x00') = true
    · have hstep := ps_read_tasks_step_first realloc_ok hre e hd
      obtain ⟨k1, hk1, hl1, hb1, hloop⟩ :=
        ps_read_tasks_loop_good realloc_ok hre rest (if atoi e ≠ 0 then [atoi e] else []) 1 1
          (by split <;> simp) (by split <;> simp) (by norm_num)
      have hids : (if atoi e ≠ 0 then [atoi e] else []) ++ task_ids rest
          = task_ids (e :: rest) := by
        rw [task_ids_cons, if_pos hd]
        split <;> simp
      rw [hids] at hl1 hloop
      refine ⟨k1, hk1, hl1, ?_, ?_⟩
      · rw [task_digit_count_cons, if_pos hd]
        have : 1 + task_digit_count rest = task_digit_count rest + 1 := by omega
        rw [← this]
        exact hb1
      · rw [ps_read_tasks_loop, hstep]
        exact hloop
    · have hd0 : isdigit (e.headD '\x00') = false := by simpa using hd
      rw [task_digit_count_cons, if_neg hd] at hdig
      obtain ⟨k1, hk1, hl1, hb1, hloop⟩ := ih hdig
      refine ⟨k1, hk1, ?_, ?_, ?_⟩
      · rw [task_ids_cons, if_neg hd]; exact hl1
      · rw [task_digit_count_cons, if_neg hd]; exact hb1
      · rw [ps_read_tasks_loop, ps_read_tasks_step_skip realloc_ok _ e hd0, task_ids_cons,
          if_neg hd]
        exact hloop

theorem takeWhile_ids_zeros (ids : List Int) (m : Nat) (h : ∀ x ∈ ids, x ≠ 0) :
    (ids ++ List.replicate m 0).takeWhile (fun t => t ≠ 0) = ids := by
  induction ids with
  | nil =>
    cases m with
    | zero => rfl
    | succ n => simp [List.replicate_succ, List.takeWhile]
  | cons x rest ih =>
    have hx : x ≠ 0 := h x (List.mem_cons_self _ _)
    simp only [List.cons_append, List.takeWhile_cons, hx, ne_eq, not_false_eq_true, decide_True,
      if_true, List.cons.injEq, true_and]
    exact ih (fun y hy => h y (List.mem_cons_of_mem _ hy))

theorem get_ids_zeros (ids : List Int) (m : Nat) (hm : 0 < m) :
    (ids ++ List.replicate m 0).get? ids.length = some 0 := by
  induction ids with
  | nil =>
    cases m with
    | zero => omega
    | succ n => rfl
  | cons x rest ih => simpa using ih

theorem ps_read_process_num_lwp (pf : Platform) (files : ProcFiles) (ps : procstat) (st : Char)
    (h : ps_read_process pf files = Outcome.returns (some (ps, st))) :
    ∃ tasks, ps_read_tasks files = Outcome.returns (some tasks) ∧
      ps.num_lwp = (tasks.takeWhile (fun t => t ≠ 0)).length % 2 ^ 32 := by
  unfold ps_read_process at h
  cases hf : files.stat_fields with
  | none => simp [hf] at h
  | some fields =>
    simp only [hf] at h
    split at h
    · exact absurd h (by simp)
    · split at h
      · exact absurd h (by simp)
      · cases ht : ps_read_tasks files with
        | killed => simp [ht] at h
        | returns o =>
          cases o with
          | none => simp [ht] at h
          | some tasks =>
            simp only [ht, one_ne_zero, if_false, Outcome.returns.injEq, Option.some.injEq,
              Prod.mk.injEq] at h
            obtain ⟨h1, _⟩ := h
            subst h1
            exact ⟨tasks, rfl, rfl⟩

theorem ps_read_tasks_step_size (realloc_ok : Nat → Bool) (hre : ∀ n, realloc_ok n = true)
    (st : TaskList) (d : List Char) (hd : isdigit (d.headD '\x00') = true) :
    (ps_read_tasks_step realloc_ok st d).map TaskList.list_size
      = some (if st.list_len + 1 ≥ st.list_size then 2 * st.list_size else st.list_size) := by
  unfold ps_read_tasks_step
  simp only [hd, Bool.not_true, Bool.false_eq_true, if_false, hre, if_true]
  by_cases hg : st.list_len + 1 ≥ st.list_size
  · simp only [hg, if_true, Option.map_some']
  · simp only [hg, if_false, Option.map_some']

/-- C11: in `ps_read_tasks`, on a task directory that opens and lists at least one name
starting with a digit (fewer than 2^30 of them, every `realloc` succeeding), each
digit-leading name doubles the capacity exactly when the used length plus one has
reached it, so the capacity runs through 2, 4, 8, ... and ends at a power of two
below 2^31; on exit `list_len < list_size` and `list[list_len] = 0` hold, so both
closing assertions pass and the function returns; the array returned is the non-zero
ids `atoi (d_name)` of the digit-leading names in listing order, followed by zeros;
the thread count `ps_read_process` reads off it is the number of those ids, which is
the number of digit-leading names when none of them parses to 0. -/
theorem C11_task_list_doubling (files : ProcFiles) (ents : List (List Char))
    (hdir : files.task_entries = some ents)
    (hre : ∀ n, files.realloc_ok n = true)
    (hdig : ∃ d ∈ ents, isdigit (d.headD '\x00') = true)
    (hlen : task_digit_count ents < 2 ^ 30) :
    (∀ (st : TaskList) (d : List Char), isdigit (d.headD '\x00') = true →
      (ps_read_tasks_step files.realloc_ok st d).map TaskList.list_size
        = some (if st.list_len + 1 ≥ st.list_size then 2 * st.list_size
                else st.list_size)) ∧
    ∃ k, 1 ≤ k ∧ 2 ^ k < 2 ^ 31 ∧
      ps_read_tasks_loop files.realloc_ok { list := none, list_size := 1, list_len := 0 } ents
        = some { list := some (task_ids ents
                                ++ List.replicate (2 ^ k - (task_ids ents).length) 0),
                 list_size := 2 ^ k, list_len := (task_ids ents).length } ∧
      (task_ids ents).length < 2 ^ k ∧
      (task_ids ents ++ List.replicate (2 ^ k - (task_ids ents).length) 0).get?
          (task_ids ents).length = some 0 ∧
      ps_read_tasks files
        = Outcome.returns
            (some (task_ids ents ++ List.replicate (2 ^ k - (task_ids ents).length) 0)) ∧
      (task_ids ents ++ List.replicate (2 ^ k - (task_ids ents).length) 0).takeWhile
          (fun t => t ≠ 0) = task_ids ents ∧
      (∀ (pf : Platform) (ps : procstat) (state : Char),
        ps_read_process pf files = Outcome.returns (some (ps, state)) →
        ps.num_lwp = (task_ids ents).length) ∧
      ((∀ d ∈ ents, isdigit (d.headD '\x00') = true → atoi d ≠ 0) →
        (task_ids ents).length = task_digit_count ents) := by
  refine ⟨fun st d hd => ps_read_tasks_step_size files.realloc_ok hre st d hd, ?_⟩
  have hpos : 0 < task_digit_count ents := by
    obtain ⟨d, hmem, hd⟩ := hdig
    unfold task_digit_count
    exact List.length_pos_of_mem (List.mem_filter.mpr ⟨hmem, hd⟩)
  obtain ⟨k, hk, hlt, hb, hloop⟩ := ps_read_tasks_loop_init files.realloc_ok hre ents hpos
  have hz := get_ids_zeros (task_ids ents) (2 ^ k - (task_ids ents).length) (by omega)
  have hret : ps_read_tasks files
      = Outcome.returns
          (some (task_ids ents ++ List.replicate (2 ^ k - (task_ids ents).length) 0)) := by
    unfold ps_read_tasks
    simp only [hdir, hloop, task_state, hlt, if_true, hz]
  have htw := takeWhile_ids_zeros (task_ids ents) (2 ^ k - (task_ids ents).length)
    (task_ids_ne_zero ents)
  refine ⟨k, hk, by omega, hloop, hlt, hz, hret, htw, ?_, ?_⟩
  · intro pf ps state hps
    obtain ⟨tasks, ht, hn⟩ := ps_read_process_num_lwp pf files ps state hps
    have : tasks = task_ids ents ++ List.replicate (2 ^ k - (task_ids ents).length) 0 :=
      Option.some.inj (Outcome.returns.inj (ht.symm.trans hret))
    rw [hn, this, htw]
    exact Nat.mod_eq_of_lt (by omega)
  · intro hnz
    unfold task_ids task_digit_count
    rw [List.filter_eq_self.mpr, List.length_map]
    intro v hv
    rw [List.mem_map] at hv
    obtain ⟨d, hd, rfl⟩ := hv
    rw [List.mem_filter] at hd
    simpa using hnz d hd.1 hd.2

/-- C11 (witness): the listing `.`, `..`, `12`, `13` gives the array 12, 13, 0, 0 in a
buffer of 4 elements and the thread count 2. -/
theorem C11_task_list_doubling_witness :
    (∃ k, ps_read_tasks (exampleFiles "(a)" "S" "250" "50" "100")
        = Outcome.returns
            (some (task_ids [".".toList, "..".toList, "12".toList, "13".toList]
                 ++ List.replicate
                      (2 ^ k - (task_ids [".".toList, "..".toList, "12".toList,
                                          "13".toList]).length) 0))) ∧
    task_ids [".".toList, "..".toList, "12".toList, "13".toList] = [12, 13] ∧
    ps_read_tasks (exampleFiles "(a)" "S" "250" "50" "100")
      = Outcome.returns (some [12, 13, 0, 0]) ∧
    (ps_read_process examplePlatform (exampleFiles "(a)" "S" "250" "50" "100")).val?.map
        (fun o => o.map (fun s => s.1.num_lwp)) = some (some 2) :=
  ⟨(C11_task_list_doubling (exampleFiles "(a)" "S" "250" "50" "100")
      [".".toList, "..".toList, "12".toList, "13".toList] rfl (fun _ => rfl)
      (by decide) (by decide)).2.imp (fun _ h => h.2.2.2.2.2.1),
   by decide, by decide, by decide⟩


end Processes
